import Mathlib

/-!
Verification development for the blackice log collection & query-safety
pipeline (`src/logExplainer/logCollector.ts`, `route.ts`, `outputSafety.ts`,
`schema.ts`).  The TypeScript sources are shallowly embedded: pure helpers
become Lean functions, the event-driven command runner becomes a step machine
over an explicit event trace, and the bounded-concurrency batch runner becomes
a step machine over an explicit scheduler trace.  Environment-derived module
constants (`MAX_FILE_BYTES`, `MAX_HOURS`, `LOKI_MAX_RESPONSE_BYTES`, ...)
appear as explicit parameters, with the code's defaults noted alongside.

String-manipulating code is modelled on `List Char` with structural recursion
so that every definition evaluates inside the kernel.  JavaScript whitespace
(`\s`, `trim`) is modelled by the ASCII whitespace characters, and
`String.prototype.localeCompare` (used only on ASCII label keys) by
case-insensitive-first comparison; both restrictions are noted where used.
-/

namespace Blackice

/-- HTTP-status-carrying error, as produced by `buildError` in
`logCollector.ts` (an `Error` with a `status` field). -/
structure HErr where
  status : Nat
  message : String
deriving DecidableEq

/-! ### JavaScript string primitives (on `List Char`) -/

/-- JS whitespace for `\s` / `trim` (restricted to the ASCII whitespace
characters, the only ones appearing in this development). -/
def wsChar (c : Char) : Bool :=
  c = ' ' || c = '\t' || c = '\n' || c = '\r'

def trimLeftL (cs : List Char) : List Char :=
  cs.dropWhile wsChar

def trimRightL (cs : List Char) : List Char :=
  (cs.reverse.dropWhile wsChar).reverse

def trimL (cs : List Char) : List Char :=
  trimLeftL (trimRightL cs)

/-- `String.prototype.trim`. -/
def jsTrim (s : String) : String :=
  String.mk (trimL s.data)

/-- `String.prototype.trimEnd`. -/
def jsTrimEnd (s : String) : String :=
  String.mk (trimRightL s.data)

/-- Split a character list at every occurrence of the separator character
(JS `String.prototype.split` with a one-character separator). -/
def splitOnCharL (sep : Char) : List Char → List (List Char)
  | [] => [[]]
  | c :: cs =>
    let rest := splitOnCharL sep cs
    if c = sep then
      [] :: rest
    else
      match rest with
      | [] => [[c]]
      | r :: rs => (c :: r) :: rs

def jsSplit (sep : Char) (s : String) : List String :=
  (splitOnCharL sep s.data).map String.mk

def isPrefixL [DecidableEq α] : List α → List α → Bool
  | [], _ => true
  | _ :: _, [] => false
  | a :: as, b :: bs => a = b && isPrefixL as bs

/-- JS `String.prototype.startsWith`. -/
def jsStartsWith (pre s : String) : Bool :=
  isPrefixL pre.data s.data

/-- JS `String.prototype.endsWith`. -/
def jsEndsWith (suf s : String) : Bool :=
  isPrefixL suf.data.reverse s.data.reverse

/-- Does `pat` occur as a contiguous sublist of `cs`? (JS `includes` /
an unanchored regex literal test.) -/
def containsSubL [DecidableEq α] (pat : List α) : List α → Bool
  | [] => pat.isEmpty
  | c :: cs => isPrefixL pat (c :: cs) || containsSubL pat cs

def jsIncludes (pat s : String) : Bool :=
  containsSubL pat.data s.data

/-- UTF-8 byte length of a string (`Buffer.byteLength(s, 'utf8')`). -/
def utf8Len (s : String) : Nat :=
  s.data.foldl (fun n c => n + c.utf8Size) 0

/-! ### POSIX path resolution (`path.resolve`)

`path.resolve` is purely lexical: it prefixes the working directory when the
input is relative, then folds `.`/`..`/empty segments away. -/

def normalizeSegs (segs : List String) : List String :=
  segs.foldl
    (fun acc seg =>
      if seg = "" || seg = "." then acc
      else if seg = ".." then acc.dropLast
      else acc ++ [seg])
    []

/-- Model of Node's `path.resolve(p)` run with working directory `cwd`
(assumed absolute), for POSIX paths. -/
def resolvePath (cwd p : String) : String :=
  let abs := if jsStartsWith "/" p then p else cwd ++ "/" ++ p
  "/" ++ String.intercalate "/" (normalizeSegs (jsSplit '/' abs))

/-! ### File-target allowlisting (`parseAllowedFilePaths`, `collectFileLogs`)

`parseAllowedFilePaths` splits the `ALLOWED_LOG_FILES` environment string on
commas, trims each entry, drops empties, and `path.resolve`s the rest;
`collectFileLogs` / `collectFileLogsIncremental` then admit a target iff its
`path.resolve`d form is a member of that set. -/

def parseAllowedFilePaths (cwd env : String) : List String :=
  (((jsSplit ',' (jsTrimEnd env)).map jsTrim).filter (fun v => v ≠ "")).map
    (resolvePath cwd)

/-- The allowlist gate at the top of `collectFileLogs` and
`collectFileLogsIncremental` (`logCollector.ts:869-878` / `795-806`). -/
def fileTargetCheck (cwd env target : String) : Except HErr Unit :=
  if (parseAllowedFilePaths cwd env).contains (resolvePath cwd target) then
    .ok ()
  else
    .error ⟨403, "file target is not in ALLOWED_LOG_FILES"⟩

/-- Modelled from the spec (§4.1 PathAllowlist), for comparison with the
implementation above: canonicalize the requested path and each allowlist
entry via filesystem realpath (`real`, with `none` for canonicalization
failure); the request is permitted iff it equals an allowed file or is
nested under an allowed directory (prefix match on the separator-terminated
canonical directory string); any canonicalization failure means "not
allowed". -/
def specPathAllowed (real : String → Option String) (isDir : String → Bool)
    (entries : List String) (requested : String) : Bool :=
  match real requested with
  | none => false
  | some realReq =>
    entries.any fun entry =>
      match real entry with
      | none => false
      | some realEntry =>
        if isDir realEntry then
          let dir := if jsEndsWith "/" realEntry then realEntry else realEntry ++ "/"
          jsStartsWith dir realReq
        else
          realReq = realEntry

/-- A two-entry toy filesystem where `/var/log` is an existing directory and
`/var/log/syslog` an existing file, with no symlinks. -/
def demoRealpath (s : String) : Option String :=
  if s = "/var/log" || s = "/var/log/syslog" then some s else none

def demoIsDir (s : String) : Bool :=
  s = "/var/log"

/-! ### Stable sorting

JavaScript's `Array.prototype.sort` is specified to be stable.  We model it
with stable insertion sort: an element is inserted before the first element
it compares `le` to, so elements comparing equal keep their original order. -/

def insertBy (le : α → α → Bool) (a : α) : List α → List α
  | [] => [a]
  | b :: bs => if le a b then a :: b :: bs else b :: insertBy le a bs

def sortJs (le : α → α → Bool) : List α → List α
  | [] => []
  | a :: as => insertBy le a (sortJs le as)

/-- Lexicographic "less or equal" on character lists by code point. -/
def listLeChar : List Char → List Char → Bool
  | [], _ => true
  | _ :: _, [] => false
  | a :: as, b :: bs =>
    if a < b then true else if b < a then false else listLeChar as bs

/-- Model of `String.prototype.localeCompare` restricted to the ASCII label
keys appearing in this pipeline: compare case-insensitively first, breaking
ties by code-point order, which matches the ICU root collator's relative
order on the label names this service validates. -/
def localeLe (a b : String) : Bool :=
  let la := a.data.map Char.toLower
  let lb := b.data.map Char.toLower
  if la = lb then listLeChar a.data b.data else listLeChar la lb

/-- Sort an association list by key with the `localeCompare` comparator
(`entries.sort(([a], [b]) => a.localeCompare(b))`). -/
def sortByKey (entries : List (String × String)) : List (String × String) :=
  sortJs (fun x y => localeLe x.1 y.1) entries

/-! ### LogQL selector compilation (`buildEffectiveLokiQuery` and friends) -/

/-- `escapeLogQLLabelValue` / `escapeLogQLStringLiteral`: the code doubles
every backslash and then prefixes every double-quote with a backslash;
since the first pass introduces no quotes and the second only inserts
backslashes before original quotes, the composition is this per-character
map. -/
def escapeLogQL (s : String) : String :=
  String.mk (s.data.flatMap fun c =>
    if c = '\\' then ['\\', '\\']
    else if c = '"' then ['\\', '"']
    else [c])

/-- The cached allowlist rules document (`LokiRulesConfig`).  The two
optional compiled regexes are modelled as predicates on the tested value
(`RegExp.prototype.test`). -/
structure LokiRules where
  job : Option String
  allowedLabels : List String
  hosts : List String
  units : List String
  hostsRegex : Option (String → Bool)
  unitsRegex : Option (String → Bool)

/-- `matchesAllowlist`: the value is accepted if the exact-match set is
non-empty and contains it, or the optional pattern matches it. -/
def matchesAllowlist (value : String) (list : List String)
    (regex : Option (String → Bool)) : Bool :=
  (!list.isEmpty && list.contains value) ||
    (match regex with
     | some p => p value
     | none => false)

/-- First value bound to `k` in a JS-object entry list (object keys are
unique, so the first binding is the binding). -/
def jsGet (labels : List (String × String)) (k : String) : Option String :=
  (labels.find? (fun kv => kv.1 = k)).map (·.2)

/-- `validateLokiLabels`: every key must be allowlisted; if a `job` rule is
configured the filters must carry exactly that job (the empty string counts
as missing, per JS truthiness); `host` and `unit` values must pass their
allowlists. -/
def validateLokiLabels (rules : LokiRules) (labels : List (String × String)) :
    Except HErr Unit :=
  match labels.find? (fun kv => !rules.allowedLabels.contains kv.1) with
  | some kv => .error ⟨403, "Loki label \"" ++ kv.1 ++ "\" is not allowed"⟩
  | none =>
    match rules.job with
    | some jobRule =>
      match jsGet labels "job" with
      | none => .error ⟨403, "Loki filters must include job"⟩
      | some j =>
        if j = "" then .error ⟨403, "Loki filters must include job"⟩
        else if j ≠ jobRule then
          .error ⟨403, "Loki job \"" ++ j ++ "\" is not allowed"⟩
        else checkHostUnit rules labels
    | none => checkHostUnit rules labels
where
  checkHostUnit (rules : LokiRules) (labels : List (String × String)) :
      Except HErr Unit :=
    match jsGet labels "host" with
    | some h =>
      if !matchesAllowlist h rules.hosts rules.hostsRegex then
        .error ⟨403, "Loki host \"" ++ h ++ "\" is not allowed"⟩
      else checkUnit rules labels
    | none => checkUnit rules labels
  checkUnit (rules : LokiRules) (labels : List (String × String)) :
      Except HErr Unit :=
    match jsGet labels "unit" with
    | some u =>
      if !matchesAllowlist u rules.units rules.unitsRegex then
        .error ⟨403, "Loki unit \"" ++ u ++ "\" is not allowed"⟩
      else .ok ()
    | none => .ok ()

/-- The loki branch of a batch request (`AnalyzeLogsBatchLokiRequest`),
restricted to the fields `buildEffectiveLokiQuery` and `enforceScopeGuard`
read.  `filters` is the entry list of the JS object (unique keys, insertion
order). -/
structure LokiBatch where
  source : String
  query : Option String
  filters : Option (List (String × String))
  contains : Option String
  allowUnscoped : Bool

/-- The optional `|=` line filter clause (omitted when `contains` is absent
or empty, per JS truthiness). -/
def lokiContainsClause (contains : Option String) : String :=
  match contains with
  | some c => if c = "" then "" else " |= \"" ++ escapeLogQL c ++ "\""
  | none => ""

/-- The selector string rendered from validated filters: entries sorted by
key, each value escaped and quoted, plus the optional `|=` line filter. -/
def renderLokiSelector (filters : List (String × String))
    (contains : Option String) : String :=
  "\x7b" ++ String.intercalate ","
      ((sortByKey filters).map (fun kv => kv.1 ++ "=\"" ++ escapeLogQL kv.2 ++ "\"")) ++
    "\x7d" ++ lokiContainsClause contains

/-- `typeof input.query === 'string' && input.query.trim().length > 0`. -/
def queryNonEmpty (query : Option String) : Bool :=
  match query with
  | some q => jsTrim q ≠ ""
  | none => false

/-- `buildEffectiveLokiQuery` (`logCollector.ts:424-443`). -/
def buildEffectiveLokiQuery (rules : LokiRules) (input : LokiBatch) :
    Except HErr String :=
  if input.source ≠ "loki" then .error ⟨400, "source must be loki"⟩
  else if queryNonEmpty input.query then
    .error ⟨403, "raw Loki query is not allowed; use filters"⟩
  else
    match input.filters with
    | none => .error ⟨400, "filters are required when query is not provided"⟩
    | some fs =>
      match validateLokiLabels rules fs with
      | .error e => .error e
      | .ok () => .ok (renderLokiSelector fs input.contains)

/-! ### A small matcher base for the regex literals in the source

Each regex literal from the source is embedded as a hand-written matcher
`List Char → Nat → Option Nat` (match attempt at a position, returning the
end position).  `\b` is the JS word boundary, `\s`/`\S` the (ASCII)
whitespace classes; alternations are tried in source order with their
continuation, matching the backtracking behaviour of the originals. -/

def isWordCh (c : Char) : Bool :=
  c.isAlpha || c.isDigit || c = '_'

def charAt (cs : List Char) (i : Nat) : Option Char :=
  (cs.drop i).head?

def wordAt (cs : List Char) (i : Nat) : Bool :=
  match charAt cs i with
  | some c => isWordCh c
  | none => false

/-- JS `\b` at position `i`. -/
def boundaryAt (cs : List Char) (i : Nat) : Bool :=
  let before := if i = 0 then false else wordAt cs (i - 1)
  before != wordAt cs i

/-- Literal match (case-insensitive when `ci`), returning the end position. -/
def litAt (ci : Bool) : List Char → List Char → Nat → Option Nat
  | [], _, i => some i
  | p :: ps, cs, i =>
    match charAt cs i with
    | some c =>
      if (if ci then c.toLower = p.toLower else c = p) then litAt ci ps cs (i + 1)
      else none
    | none => none

def wsRunLen (cs : List Char) (i : Nat) : Nat :=
  ((cs.drop i).takeWhile wsChar).length

def nonWsRunLen (cs : List Char) (i : Nat) : Nat :=
  ((cs.drop i).takeWhile (fun c => !wsChar c)).length

/-- `\s+` (maximal run; a following token outside `\s` forces maximality,
which is the case in every pattern below). -/
def wsPlus (cs : List Char) (i : Nat) : Option Nat :=
  let n := wsRunLen cs i
  if n = 0 then none else some (i + n)

/-- `\s*` (maximal run). -/
def wsStarEnd (cs : List Char) (i : Nat) : Nat :=
  i + wsRunLen cs i

/-- `\S+` (maximal run; always followed by `\s+` in the patterns below,
which forces maximality). -/
def nonWsPlus (cs : List Char) (i : Nat) : Option Nat :=
  let n := nonWsRunLen cs i
  if n = 0 then none else some (i + n)

def bAfter (cs : List Char) (i : Nat) : Option Nat :=
  if boundaryAt cs i then some i else none

/-- Leftmost match of a matcher over the whole input (regex `test` /
`String.replace` site selection). -/
def firstMatchFrom (m : List Char → Nat → Option Nat) (cs : List Char) :
    Option (Nat × Nat) :=
  (List.range (cs.length + 1)).findSome? fun p => (m cs p).map (fun e => (p, e))

def testPat (m : List Char → Nat → Option Nat) (cs : List Char) : Bool :=
  (firstMatchFrom m cs).isSome

/-! ### Scope guard (`hasScopeLabelsIn*`, `enforceScopeGuard`) -/

/-- `/\b(?:host|unit)\s*(?:=|!=|=~|!~)\s*"/` (case-sensitive). -/
def scopeLabelMatchAt (cs : List Char) (i : Nat) : Option Nat :=
  let opTail (j : Nat) : Option Nat := litAt false ['"'] cs (wsStarEnd cs j)
  let ops (j : Nat) : Option Nat :=
    ((litAt false ['='] cs j).bind opTail) <|>
    ((litAt false ['!', '='] cs j).bind opTail) <|>
    ((litAt false ['=', '~'] cs j).bind opTail) <|>
    ((litAt false ['!', '~'] cs j).bind opTail)
  if boundaryAt cs i then
    (((litAt false "host".data cs i) <|> (litAt false "unit".data cs i)).bind
      fun j => ops (wsStarEnd cs j))
  else none

def hasScopeLabelsInRawQuery (query : String) : Bool :=
  testPat scopeLabelMatchAt query.data

def hasScopeLabelsInFilters (filters : List (String × String)) : Bool :=
  (jsGet filters "host").isSome || (jsGet filters "unit").isSome

/-- `enforceScopeGuard` (`logCollector.ts:445-457`), with the
`LOKI_REQUIRE_SCOPE_LABELS` environment flag as a parameter. -/
def enforceScopeGuard (requireScopeLabels : Bool) (input : LokiBatch)
    (effectiveQuery : String) : Except HErr Unit :=
  if !requireScopeLabels || input.allowUnscoped then .ok ()
  else
    let isScoped :=
      (input.query.isSome && hasScopeLabelsInRawQuery effectiveQuery) ||
      (input.filters.isSome &&
        (match input.filters with
         | some fs => hasScopeLabelsInFilters fs
         | none => false))
    if isScoped then .ok ()
    else .error ⟨400, "Loki query must include host or unit label (or set allowUnscoped=true)"⟩

/-! ### Selector parsing and normalization (`parseSimpleSelector`,
`normalizeSelector`, `validateAllowedLokiSelector`) -/

def lbrace : Char := Char.ofNat 123

def rbrace : Char := Char.ofNat 125

def labelKeyStart (c : Char) : Bool :=
  c.isAlpha || c = '_'

def labelKeyChar (c : Char) : Bool :=
  c.isAlpha || c.isDigit || c = '_'

/-- `[a-zA-Z_][a-zA-Z0-9_]*`, returning the key and the rest. -/
def parseLabelKey : List Char → Option (List Char × List Char)
  | [] => none
  | c :: cs =>
    if labelKeyStart c then
      let run := cs.takeWhile labelKeyChar
      some (c :: run, cs.drop run.length)
    else none

/-- `"([^"\n\r]*)"`, returning the value and the rest. -/
def parseQuotedValue : List Char → Option (List Char × List Char)
  | [] => none
  | c :: cs =>
    if c = '"' then
      let v := cs.takeWhile (fun d => d ≠ '"' && d ≠ '\n' && d ≠ '\r')
      match cs.drop v.length with
      | d :: rest => if d = '"' then some (v, rest) else none
      | [] => none
    else none

/-- `Map.set` semantics: an existing key keeps its position but takes the
new value; a new key is appended. -/
def mapSet (m : List (String × String)) (k v : String) : List (String × String) :=
  if m.any (fun kv => kv.1 = k) then
    m.map (fun kv => if kv.1 = k then (k, v) else kv)
  else m ++ [(k, v)]

/-- The pair list of the selector-shape regex: `pair \s* (',' \s* pair \s*)*`
followed by the closing brace at end of input. -/
def parsePairsLoop (fuel : Nat) (acc : List (String × String)) (cs : List Char) :
    Option (List (String × String)) :=
  match fuel with
  | 0 => none
  | fuel + 1 =>
    (parseLabelKey cs).bind fun (k, r1) =>
    match trimLeftL r1 with
    | '=' :: r2 =>
      (parseQuotedValue (trimLeftL r2)).bind fun (v, r3) =>
      let acc := mapSet acc (String.mk k) (String.mk v)
      match trimLeftL r3 with
      | ',' :: r4 => parsePairsLoop fuel acc (trimLeftL r4)
      | d :: r4 => if d = rbrace && r4 = [] then some acc else none
      | [] => none
    | _ => none

/-- The anchored shape regex
`^\{\s*(pair\s*(,\s*pair\s*)*)?\}$` together with the sticky pair-extraction
loop that follows it (both accept the same language, and the extraction
uses `Map.set` semantics for duplicate keys). -/
def parseSelShape (cs : List Char) : Option (List (String × String)) :=
  match cs with
  | [] => none
  | c :: rest =>
    if c = lbrace then
      match trimLeftL rest with
      | [] => none
      | d :: r2 =>
        if d = rbrace && r2 = [] then some []
        else parsePairsLoop (cs.length + 1) [] (trimLeftL rest)
    else none

/-- `parseSimpleSelector` (`logCollector.ts:283-319`). -/
def parseSimpleSelector (selector : String) : Except HErr (List (String × String)) :=
  let t := trimL selector.data
  if t.any (fun c => c = '\n' || c = '\r') then
    .error ⟨400, "selector must be a single line"⟩
  else if containsSubL ['|'] t || containsSubL ['!', '='] t ||
      containsSubL ['=', '~'] t || containsSubL ['!', '~'] t then
    .error ⟨400, "selector contains unsupported operators"⟩
  else
    match parseSelShape t with
    | none => .error ⟨400, "selector must be in format \x7bkey=\"value\",key2=\"value2\"\x7d"⟩
    | some labels => .ok labels

/-- `normalizeSelector`: parse, sort by key, re-render (values are rendered
verbatim; the shape regex already excludes quotes and newlines in them). -/
def normalizeSelector (selector : String) : Except HErr String :=
  (parseSimpleSelector selector).map fun labels =>
    "\x7b" ++ String.intercalate ","
      ((sortByKey labels).map (fun kv => kv.1 ++ "=\"" ++ kv.2 ++ "\"")) ++ "\x7d"

/-- `validateAllowedLokiSelector` (`logCollector.ts:371-381`), with the
`LOKI_BASE_URL`-derived enablement flag as a parameter.  This is the entry
point of the batch `selectors` branch (`route.ts:443`); its result is the
string `collectLokiLogs` sends to the aggregator as the `query` parameter. -/
def validateAllowedLokiSelector (enabled : Bool) (rules : LokiRules)
    (selector : String) : Except HErr String :=
  if !enabled then .error ⟨503, "loki source is disabled (set LOKI_BASE_URL)"⟩
  else
    (normalizeSelector selector).bind fun normalized =>
    (parseSimpleSelector normalized).bind fun candidate =>
    match validateLokiLabels rules candidate with
    | .error e => .error e
    | .ok () => .ok normalized

/-! ### Clamping helpers (`clampHours`, `clampMaxLines`, `clampLokiLimit`)
and the request schema's `hours` bound

`hours` is a JS number; its finite values are modelled as rationals and the
non-finite ones (`NaN`, `±Infinity`) as `none`. -/

/-- `clampHours` (`logCollector.ts:62-67`): reject non-finite or
non-positive hours with 400, otherwise `Math.min(Math.floor(hours),
MAX_HOURS)`.  `maxHours` is the `MAX_QUERY_HOURS`/`MAX_HOURS` environment
constant (default 168). -/
def clampHours (maxHours : Int) (hours : Option ℚ) : Except HErr Int :=
  match hours with
  | none => .error ⟨400, "hours must be a positive number"⟩
  | some q =>
    if q ≤ 0 then .error ⟨400, "hours must be a positive number"⟩
    else .ok (min (Rat.floor q) maxHours)

/-- `clampMaxLines` (`logCollector.ts:69-74`): reject non-positive line
counts with 400, otherwise `Math.min(maxLines, MAX_LINES_CAP)`.  (The
schema already guarantees integrality, so `maxLines` is an `Int` here.) -/
def clampMaxLines (maxLinesCap : Int) (maxLines : Int) : Except HErr Int :=
  if maxLines ≤ 0 then .error ⟨400, "maxLines must be a positive integer"⟩
  else .ok (min maxLines maxLinesCap)

/-- `clampLokiLimit` (`logCollector.ts:489-494`):
`Math.min(limit, Math.max(1, Math.floor(LOKI_MAX_LINES_CAP)))`. -/
def clampLokiLimit (lokiMaxLinesCap : Int) (limit : Int) : Except HErr Int :=
  if limit ≤ 0 then .error ⟨400, "limit must be a positive integer"⟩
  else .ok (min limit (max 1 lokiMaxLinesCap))

/-- The `hours` bound of `AnalyzeLogsRequestSchema` (`schema.ts:28`):
`z.number().positive().max(ANALYZE_MAX_HOURS)` with
`ANALYZE_MAX_HOURS = 168` — requests outside `(0, 168]` (or non-finite)
are rejected at validation, before any collector runs. -/
def analyzeHoursAccepted (hours : Option ℚ) : Bool :=
  match hours with
  | none => false
  | some q => decide (0 < q) && decide (q ≤ 168)

/-! ### `Date.prototype.toISOString` (proleptic Gregorian, UTC) -/

def padNum (width n : Nat) : String :=
  let s := toString n
  if s.length < width then String.mk (List.replicate (width - s.length) '0') ++ s
  else s

/-- `new Date(ms).toISOString()` for epoch milliseconds in the four-digit
year range (the range exercised by this service's nanosecond timestamps). -/
def isoOfMs (ms : Int) : String :=
  let day : Int := 86400000
  let days := Int.fdiv ms day
  let msod := (ms - days * day).toNat
  let z := days + 719468
  let era := Int.fdiv z 146097
  let doe := (z - era * 146097).toNat
  let yoe := (doe - doe / 1460 + doe / 36524 - doe / 146096) / 365
  let doy := doe - (365 * yoe + yoe / 4 - yoe / 100)
  let mp := (5 * doy + 2) / 153
  let d := doy - (153 * mp + 2) / 5 + 1
  let m := if mp < 10 then mp + 3 else mp - 9
  let y := era * 400 + yoe + (if m ≤ 2 then 1 else 0)
  let hh := msod / 3600000
  let mi := msod % 3600000 / 60000
  let ss := msod % 60000 / 1000
  let msf := msod % 1000
  padNum 4 y.toNat ++ "-" ++ padNum 2 m ++ "-" ++ padNum 2 d ++ "T" ++
    padNum 2 hh ++ ":" ++ padNum 2 mi ++ ":" ++ padNum 2 ss ++ "." ++
    padNum 3 msf ++ "Z"

/-! ### Aggregator response post-processing (`queryLokiRange`,
`logCollector.ts:659-706`) -/

/-- `BigInt(tsRaw)` as a partial function: optional sign and decimal digits
after trimming (a failing parse makes the code skip the entry). -/
def parseTsNs (s : String) : Option Int :=
  let t := trimL s.data
  match t with
  | [] => some 0
  | '-' :: ds =>
    if ds ≠ [] && ds.all Char.isDigit then
      some (-(Int.ofNat (ds.foldl (fun n c => n * 10 + (c.toNat - 48)) 0)))
    else none
  | ds =>
    if ds.all Char.isDigit then
      some (Int.ofNat (ds.foldl (fun n c => n * 10 + (c.toNat - 48)) 0))
    else none

/-- One decoded stream of a `query_range` response: its label set and its
`[timestamp, line]` values. -/
structure LokiStream where
  stream : List (String × String)
  values : List (String × String)

/-- `formatStreamLabels`: label entries sorted by key, rendered `k=v` and
joined with commas. -/
def formatStreamLabels (labels : List (String × String)) : String :=
  String.intercalate "," ((sortByKey labels).map (fun kv => kv.1 ++ "=" ++ kv.2))

/-- Render one value tuple of a stream: RFC-3339 timestamp, the bracketed
sorted label list (omitted for label-less streams), then the original line.
`BigInt` division by 1 000 000 truncates toward zero (`Int.tdiv`). -/
def formatLokiEntry (labelPrefix : String) (ts : Int) (line : String) : String :=
  let tsIso := isoOfMs (Int.tdiv ts 1000000)
  if labelPrefix ≠ "" then tsIso ++ " [" ++ labelPrefix ++ "] " ++ line
  else tsIso ++ " " ++ line

/-- The flattening loop of `queryLokiRange`: every `(labels, [ts, line])`
entry of every stream, with unparseable timestamps skipped. -/
def flattenLokiStreams (streams : List LokiStream) : List (Int × String) :=
  streams.flatMap fun st =>
    let labelPrefix := formatStreamLabels st.stream
    st.values.filterMap fun tv =>
      (parseTsNs tv.1).map fun ts => (ts, formatLokiEntry labelPrefix ts tv.2)

/-- `flattened.sort((a, b) => a.ts < b.ts ? -1 : a.ts > b.ts ? 1 : 0)`:
stable ascending sort by timestamp. -/
def sortLokiEntries (l : List (Int × String)) : List (Int × String) :=
  sortJs (fun a b => a.1 ≤ b.1) l

/-- `xs.slice(-n)` for `n ≥ 0`. -/
def takeLast (n : Nat) (xs : List α) : List α :=
  if n = 0 then xs else xs.drop (xs.length - n)

/-- The byte-cap loop: accumulate whole lines while the next line (plus its
newline byte) still fits in `maxBytes`; stop at the first line that would
not, reporting whether anything was dropped. -/
def capLines (maxBytes : Nat) : Nat → List String → List String × Bool
  | _, [] => ([], false)
  | used, x :: xs =>
    let lineBytes := utf8Len x + 1
    if maxBytes < used + lineBytes then ([], true)
    else
      let (rest, tr) := capLines maxBytes (used + lineBytes) xs
      (x :: rest, tr)

def lokiTruncationMarker : String :=
  "[truncated] Loki response exceeded LOKI_MAX_RESPONSE_BYTES"

/-- The successful-response post-processing of `queryLokiRange`: flatten,
stable-sort by timestamp, keep the most recent `safeLimit` entries, apply
the whole-line byte cap (`max(1000, LOKI_MAX_RESPONSE_BYTES)`), append the
truncation marker when lines were dropped, and join with newlines.
`lokiMaxLinesCap` and `maxResponseBytes` are the corresponding environment
constants. -/
def queryLokiRangePost (lokiMaxLinesCap : Int) (maxResponseBytes : Int)
    (streams : List LokiStream) (limit : Int) : Except HErr String :=
  (clampLokiLimit lokiMaxLinesCap limit).map fun safeLimit =>
    let selected := takeLast safeLimit.toNat (sortLokiEntries (flattenLokiStreams streams))
    let maxBytes := max 1000 maxResponseBytes
    let (outLines, truncated) := capLines maxBytes.toNat 0 (selected.map (·.2))
    let outLines := if truncated then outLines ++ [lokiTruncationMarker] else outLines
    String.intercalate "\n" outLines

/-- The formatted lines selected by the clamped limit: the most recent
`min(limit, max(1, LOKI_MAX_LINES_CAP))` entries of the time-sorted
flattening, in order. -/
def lokiSelectedLines (lokiMaxLinesCap : Int) (streams : List LokiStream)
    (limit : Int) : List String :=
  (takeLast (min limit (max 1 lokiMaxLinesCap)).toNat
    (sortLokiEntries (flattenLokiStreams streams))).map (·.2)

/-! ### Incremental file reader (`collectFileLogsIncremental`,
`logCollector.ts:795-867`)

The file is modelled by its byte content; `stat.size` is its length, and the
chunked read loop reads exactly `min(MAX_FILE_BYTES, size - fromCursor)`
bytes starting at `fromCursor` (the file does not change during one call).
`Buffer.toString('utf8')` is modelled by a lossy UTF-8 decoder (exact on
ASCII; invalid sequences become U+FFFD as in Node). -/

def replacementChar : Char := Char.ofNat 0xFFFD

def isUtf8Cont (b : Nat) : Bool :=
  0x80 ≤ b && b < 0xC0

/-- Fuel-driven decoder core (the fuel, initialised to the byte count,
only guarantees structural termination: each step consumes at least one
byte, so the fuel never runs out first). -/
def utf8DecodeGo : Nat → List Nat → List Char
  | 0, _ => []
  | _, [] => []
  | fuel + 1, b :: rest =>
    if b < 0x80 then Char.ofNat b :: utf8DecodeGo fuel rest
    else if b < 0xC0 then replacementChar :: utf8DecodeGo fuel rest
    else if b < 0xE0 then
      match rest with
      | c1 :: r =>
        if isUtf8Cont c1 then
          let cp := (b - 0xC0) * 64 + (c1 - 0x80)
          (if 0x80 ≤ cp then Char.ofNat cp else replacementChar) :: utf8DecodeGo fuel r
        else replacementChar :: utf8DecodeGo fuel (c1 :: r)
      | [] => [replacementChar]
    else if b < 0xF0 then
      match rest with
      | c1 :: c2 :: r =>
        if isUtf8Cont c1 && isUtf8Cont c2 then
          let cp := (b - 0xE0) * 4096 + (c1 - 0x80) * 64 + (c2 - 0x80)
          (if 0x800 ≤ cp && (cp < 0xD800 || 0xE000 ≤ cp) then Char.ofNat cp
           else replacementChar) :: utf8DecodeGo fuel r
        else replacementChar :: utf8DecodeGo fuel rest
      | _ => [replacementChar]
    else if b < 0xF8 then
      match rest with
      | c1 :: c2 :: c3 :: r =>
        if isUtf8Cont c1 && isUtf8Cont c2 && isUtf8Cont c3 then
          let cp := (b - 0xF0) * 262144 + (c1 - 0x80) * 4096 + (c2 - 0x80) * 64 + (c3 - 0x80)
          (if 0x10000 ≤ cp && cp ≤ 0x10FFFF then Char.ofNat cp
           else replacementChar) :: utf8DecodeGo fuel r
        else replacementChar :: utf8DecodeGo fuel rest
      | _ => [replacementChar]
    else replacementChar :: utf8DecodeGo fuel rest

def utf8Decode (bs : List Nat) : List Char :=
  utf8DecodeGo bs.length bs

/-- `text.split(/\r?\n/)`: split on newlines, each optionally preceded by a
carriage return (equivalently: split on `'\n'`, then strip one trailing
`'\r'` from each piece). -/
def splitLinesJs (cs : List Char) : List String :=
  (splitOnCharL '\n' cs).map fun piece =>
    match piece.reverse with
    | '\r' :: rest => String.mk rest.reverse
    | _ => String.mk piece

/-- The result record of `collectFileLogsIncremental`. -/
structure IncrResult where
  logs : String
  fromCursor : Nat
  nextCursor : Nat
  rotated : Bool
  truncatedByBytes : Bool
deriving DecidableEq

/-- The read-and-cursor core of `collectFileLogsIncremental` (after the
allowlist gate): `maxFileBytes` is `MAX_FILE_BYTES` (default 2 000 000) and
`maxLinesCap` is `MAX_LINES_CAP` (default 2 000). -/
def readFileIncremental (maxFileBytes : Nat) (maxLinesCap : Int)
    (content : List Nat) (cursor : Int) (maxLines : Int) :
    Except HErr IncrResult :=
  (clampMaxLines maxLinesCap maxLines).map fun safeMaxLines =>
    let size := content.length
    let requestedCursor := (max 0 cursor).toNat
    let rotated := decide (size < requestedCursor)
    let fromCursor := if size < requestedCursor then 0 else min requestedCursor size
    if size ≤ fromCursor then
      ⟨"", fromCursor, fromCursor, rotated, false⟩
    else
      let availableBytes := size - fromCursor
      let readBytesLimit := min maxFileBytes availableBytes
      let truncatedByBytes := decide (maxFileBytes < availableBytes)
      let slice := (content.drop fromCursor).take readBytesLimit
      let position := fromCursor + slice.length
      let text := utf8Decode slice
      let lines := splitLinesJs (trimRightL text)
      let logs := String.intercalate "\n" (takeLast safeMaxLines.toNat lines)
      ⟨logs, fromCursor, position, rotated, truncatedByBytes⟩

/-- `collectFileLogsIncremental` including its allowlist gate: reject
targets outside `ALLOWED_LOG_FILES`, then run the incremental read. -/
def collectFileLogsIncremental (maxFileBytes : Nat) (maxLinesCap : Int)
    (cwd env target : String) (content : List Nat) (cursor : Int)
    (maxLines : Int) : Except HErr IncrResult :=
  match clampMaxLines maxLinesCap maxLines with
  | .error e => .error e
  | .ok _ =>
    match fileTargetCheck cwd env target with
    | .error e => .error e
    | .ok () => readFileIncremental maxFileBytes maxLinesCap content cursor maxLines

/-! ### Command runner (`runAllowedCommand`, `logCollector.ts:76-140`)

The callback-driven process I/O is embedded as a step machine over an
explicit event trace: stdout/stderr chunks, the wall-clock timer firing,
a spawn error, and process close, in whatever order the runtime delivers
them.  The `settled` flag mirrors the code's: the first settling event
fixes the outcome, later events are ignored. -/

inductive CmdEvent where
  | stdout (chunk : String)
  | stderr (chunk : String)
  | timeoutFire
  | spawnErr (msg : String)
  | close (code : Option Int)
deriving DecidableEq

deriving instance DecidableEq for Except

structure CmdState where
  settled : Bool
  stdoutAcc : String
  stderrAcc : String
  outcome : Option (Except HErr String)
deriving DecidableEq

def cmdInit : CmdState := ⟨false, "", "", none⟩

/-- `String(code)` where close may deliver `null`. -/
def jsCodeStr : Option Int → String
  | some c => toString c
  | none => "null"

/-- One event handler dispatch of `runAllowedCommand`; `maxCommandBytes` is
`MAX_COMMAND_BYTES` (default 2 000 000). -/
def cmdStep (command : String) (maxCommandBytes : Nat) (s : CmdState)
    (ev : CmdEvent) : CmdState :=
  if s.settled then s
  else
    match ev with
    | .stdout chunk =>
      let acc := s.stdoutAcc ++ chunk
      if maxCommandBytes < utf8Len acc then
        { s with
          settled := true
          stdoutAcc := acc
          outcome := some (.error ⟨413, "command output exceeds MAX_COMMAND_BYTES limit"⟩) }
      else { s with stdoutAcc := acc }
    | .stderr chunk => { s with stderrAcc := s.stderrAcc ++ chunk }
    | .timeoutFire =>
      { s with
        settled := true
        outcome := some (.error ⟨504, "log collection timed out for " ++ command⟩) }
    | .spawnErr msg =>
      { s with
        settled := true
        outcome := some (.error ⟨500, "failed to execute " ++ command ++ ": " ++ msg⟩) }
    | .close code =>
      if code ≠ some 0 then
        let st := jsTrim s.stderrAcc
        { s with
          settled := true
          outcome := some (.error ⟨502, command ++ " failed: " ++
            (if st ≠ "" then st else "exit code " ++ jsCodeStr code)⟩) }
      else { s with settled := true, outcome := some (.ok s.stdoutAcc) }

def runCmd (command : String) (maxCommandBytes : Nat)
    (events : List CmdEvent) : CmdState :=
  events.foldl (cmdStep command maxCommandBytes) cmdInit

/-! ### Bounded-concurrency batch runner (`runConcurrent`,
`route.ts:142-161`)

`runConcurrent` spawns `min(concurrency, items.length)` async runners
sharing one index counter; each runner synchronously claims the next index,
awaits the worker, writes `results[claimed]`, and loops.  We embed it as a
machine over a scheduler trace of runner ids: each runner alternates
between a (synchronous, hence atomic) claim step and a completion step.
A runner whose claim finds the counter exhausted stops acting (`break`),
which the machine models as a no-op step. -/

structure BatchState (R : Type) where
  nextIndex : Nat
  pending : List (Option Nat)
  results : List (Option R)
deriving DecidableEq

def batchInit (R : Type) (runners n : Nat) : BatchState R :=
  ⟨0, List.replicate runners none, List.replicate n none⟩

/-- One scheduler step giving runner `k` the CPU: complete its claimed item
(writing `results[i] := f i`) if it has one, otherwise claim the next
index if any remain. -/
def batchStep (f : Nat → R) (n : Nat) (s : BatchState R) (k : Nat) : BatchState R :=
  match s.pending[k]? with
  | none => s
  | some (some i) =>
    { s with
      pending := s.pending.set k none
      results := s.results.set i (some (f i)) }
  | some none =>
    if s.nextIndex < n then
      { s with
        pending := s.pending.set k (some s.nextIndex)
        nextIndex := s.nextIndex + 1 }
    else s

def runBatch (f : Nat → R) (n runners : Nat) (sched : List Nat) : BatchState R :=
  sched.foldl (batchStep f n) (batchInit R runners n)

/-! ### Batch worker result shape (`route.ts:500-509` catch) -/

inductive BatchItemResult where
  | ok (target : String) (analysis : String)
  | err (target : String) (status : Nat) (error : String)
deriving DecidableEq

/-- The per-item `try`/`catch` of the batch worker: a worker failure is
converted into an error result carrying the error's HTTP status; it never
propagates out of the worker. -/
def batchWorkerWrap (target : String) (outcome : Except HErr String) :
    BatchItemResult :=
  match outcome with
  | .ok a => .ok target a
  | .error e => .err target e.status e.message

def batchResultIsOk : BatchItemResult → Bool
  | .ok .. => true
  | .err .. => false

/-- `results.filter((r) => r.ok).length` (`route.ts:512`). -/
def tallyOk (results : List BatchItemResult) : Nat :=
  (results.filter batchResultIsOk).length

/-! ### Output safety filter (`outputSafety.ts`)

Each entry of `FORBIDDEN_PATTERNS` becomes a matcher plus the exact
`String(pattern)` form that the code records in `reasons`. -/

structure ForbiddenPat where
  str : String
  matchAt : List Char → Nat → Option Nat

/-- `\b<word>\b` with the `i` flag. -/
def wordCIMatchAt (w : String) (cs : List Char) (i : Nat) : Option Nat :=
  if boundaryAt cs i then (litAt true w.data cs i).bind (bAfter cs) else none

/-- Ordered alternation of literals, each followed by `\b` (with
backtracking into the alternation as in JS). -/
def altsWithBoundary (alts : List String) (cs : List Char) (i : Nat) : Option Nat :=
  alts.findSome? fun a => (litAt true a.data cs i).bind (bAfter cs)

/-- `/\bapt(?:-get)?\b/i`: JS backtracks out of the optional group when the
trailing boundary fails, so both continuations are tried. -/
def aptMatchAt (cs : List Char) (i : Nat) : Option Nat :=
  if boundaryAt cs i then
    (litAt true "apt".data cs i).bind fun e =>
      ((litAt true "-get".data cs e).bind (bAfter cs)) <|> bAfter cs e
  else none

/-- The `rm` pattern: word-bounded `rm`, one or more spaces, then a dash
(its literal source is the `str` field of its `FORBIDDEN_PATTERNS` entry). -/
def rmMatchAt (cs : List Char) (i : Nat) : Option Nat :=
  if boundaryAt cs i then
    (litAt true "rm".data cs i).bind fun e =>
    (bAfter cs e).bind fun e =>
    (wsPlus cs e).bind fun e =>
    litAt true "-".data cs e
  else none

/-- `/\bsystemctl\s+(?:start|restart|enable|disable|stop)\b/i`. -/
def systemctlMatchAt (cs : List Char) (i : Nat) : Option Nat :=
  if boundaryAt cs i then
    (litAt true "systemctl".data cs i).bind fun e =>
    (wsPlus cs e).bind
      (altsWithBoundary ["start", "restart", "enable", "disable", "stop"] cs)
  else none

/-- `/\bservice\s+\S+\s+(?:start|restart|stop)\b/i`. -/
def serviceMatchAt (cs : List Char) (i : Nat) : Option Nat :=
  if boundaryAt cs i then
    (litAt true "service".data cs i).bind fun e =>
    (wsPlus cs e).bind fun e =>
    (nonWsPlus cs e).bind fun e =>
    (wsPlus cs e).bind (altsWithBoundary ["start", "restart", "stop"] cs)
  else none

/-- `/\bpostfix\s+(?:reload|start|stop|restart)\b/i`. -/
def postfixCmdMatchAt (cs : List Char) (i : Nat) : Option Nat :=
  if boundaryAt cs i then
    (litAt true "postfix".data cs i).bind fun e =>
    (wsPlus cs e).bind (altsWithBoundary ["reload", "start", "stop", "restart"] cs)
  else none

/-- `/\btee\b\s+\/etc\//i`. -/
def teeMatchAt (cs : List Char) (i : Nat) : Option Nat :=
  if boundaryAt cs i then
    (litAt true "tee".data cs i).bind fun e =>
    (bAfter cs e).bind fun e =>
    (wsPlus cs e).bind fun e =>
    litAt true "/etc/".data cs e
  else none

/-- `/>\s*\/etc\//i`. -/
def redirectEtcMatchAt (cs : List Char) (i : Nat) : Option Nat :=
  (litAt true ">".data cs i).bind fun e => litAt true "/etc/".data cs (wsStarEnd cs e)

/-- `/\b<mv|cp>\b\s+\S+\s+\/(?:etc|usr|var)\//i`. -/
def moveIntoSysMatchAt (w : String) (cs : List Char) (i : Nat) : Option Nat :=
  if boundaryAt cs i then
    (litAt true w.data cs i).bind fun e =>
    (bAfter cs e).bind fun e =>
    (wsPlus cs e).bind fun e =>
    (nonWsPlus cs e).bind fun e =>
    (wsPlus cs e).bind fun e =>
    (litAt true "/".data cs e).bind fun e =>
    ["etc/", "usr/", "var/"].findSome? fun d => litAt true d.data cs e
  else none

/-- `/\bkill(?:all)?\b/i` (backtracking out of the optional group as for
`apt`). -/
def killMatchAt (cs : List Char) (i : Nat) : Option Nat :=
  if boundaryAt cs i then
    (litAt true "kill".data cs i).bind fun e =>
      ((litAt true "all".data cs e).bind (bAfter cs)) <|> bAfter cs e
  else none

/-- `/\biptables\s+-(?:A|D|I|P|F|X|N|R|Z)\b/i`. -/
def iptablesMatchAt (cs : List Char) (i : Nat) : Option Nat :=
  if boundaryAt cs i then
    (litAt true "iptables".data cs i).bind fun e =>
    (wsPlus cs e).bind fun e =>
    (litAt true "-".data cs e).bind
      (altsWithBoundary ["A", "D", "I", "P", "F", "X", "N", "R", "Z"] cs)
  else none

/-- `/\bufw\s+(?:enable|disable|reset|allow|deny|reject|limit|delete|reload)\b/i`. -/
def ufwMatchAt (cs : List Char) (i : Nat) : Option Nat :=
  if boundaryAt cs i then
    (litAt true "ufw".data cs i).bind fun e =>
    (wsPlus cs e).bind
      (altsWithBoundary
        ["enable", "disable", "reset", "allow", "deny", "reject", "limit", "delete", "reload"] cs)
  else none

/-- `FORBIDDEN_PATTERNS` (`outputSafety.ts:1-23`), in source order, paired
with their JS `String(pattern)` forms. -/
def FORBIDDEN_PATTERNS : List ForbiddenPat :=
  [⟨"/\\bsudo\\b/i", wordCIMatchAt "sudo"⟩,
   ⟨"/\\bapt(?:-get)?\\b/i", aptMatchAt⟩,
   ⟨"/\\byum\\b/i", wordCIMatchAt "yum"⟩,
   ⟨"/\\bdnf\\b/i", wordCIMatchAt "dnf"⟩,
   ⟨"/\\bpacman\\b/i", wordCIMatchAt "pacman"⟩,
   ⟨"/\\bbrew\\b/i", wordCIMatchAt "brew"⟩,
   ⟨"/\\brm\\b\\s+-/i", rmMatchAt⟩,
   ⟨"/\\bchmod\\b/i", wordCIMatchAt "chmod"⟩,
   ⟨"/\\bchown\\b/i", wordCIMatchAt "chown"⟩,
   ⟨"/\\bsystemctl\\s+(?:start|restart|enable|disable|stop)\\b/i", systemctlMatchAt⟩,
   ⟨"/\\bservice\\s+\\S+\\s+(?:start|restart|stop)\\b/i", serviceMatchAt⟩,
   ⟨"/\\bpostconf\\b/i", wordCIMatchAt "postconf"⟩,
   ⟨"/\\bpostfix\\s+(?:reload|start|stop|restart)\\b/i", postfixCmdMatchAt⟩,
   ⟨"/\\btee\\b\\s+\\/etc\\//i", teeMatchAt⟩,
   ⟨"/>\\s*\\/etc\\//i", redirectEtcMatchAt⟩,
   ⟨"/\\bmv\\b\\s+\\S+\\s+\\/(?:etc|usr|var)\\//i", moveIntoSysMatchAt "mv"⟩,
   ⟨"/\\bcp\\b\\s+\\S+\\s+\\/(?:etc|usr|var)\\//i", moveIntoSysMatchAt "cp"⟩,
   ⟨"/\\bkill(?:all)?\\b/i", killMatchAt⟩,
   ⟨"/\\biptables\\s+-(?:A|D|I|P|F|X|N|R|Z)\\b/i", iptablesMatchAt⟩,
   ⟨"/\\bufw\\s+(?:enable|disable|reset|allow|deny|reject|limit|delete|reload)\\b/i", ufwMatchAt⟩]

/-- `ensureReadOnlyAnalysisOutput`: `none` means safe, otherwise the reason
naming the first pattern that matched. -/
def ensureReadOnlyAnalysisOutput (analysis : String) : Option String :=
  (FORBIDDEN_PATTERNS.find? fun p => testPat p.matchAt analysis.data).map fun p =>
    "Unsafe remediation content detected (" ++ p.str ++ ")"

def backtickChar : Char := Char.ofNat 96

/-- `/^\s*(?:[-*]|\d+\.)\s+/`: is the line a bullet or numbered item? -/
def bulletTest (cs : List Char) : Bool :=
  let i := wsStarEnd cs 0
  let afterMarker : Option Nat :=
    match charAt cs i with
    | some c =>
      if c = '-' || c = '*' then some (i + 1)
      else if c.isDigit then
        let run := ((cs.drop i).takeWhile Char.isDigit).length
        match charAt cs (i + run) with
        | some d => if d = '.' then some (i + run + 1) else none
        | none => none
      else none
    | none => none
  match afterMarker with
  | some j => decide (0 < wsRunLen cs j)
  | none => false

/-- `linePrefixForRedaction`: length of the `/^(\s*(?:[-*]|\d+\.)\s*)/`
capture, `0` when the marker is absent. -/
def bulletPrefixLen (cs : List Char) : Nat :=
  let i := wsStarEnd cs 0
  match charAt cs i with
  | some c =>
    if c = '-' || c = '*' then wsStarEnd cs (i + 1)
    else if c.isDigit then
      let run := ((cs.drop i).takeWhile Char.isDigit).length
      match charAt cs (i + run) with
      | some d => if d = '.' then wsStarEnd cs (i + run + 1) else 0
      | none => 0
    else 0
  | none => 0

def redactionPlaceholder : String := "[REDACTED unsafe remediation command removed]"

/-- First pattern of `FORBIDDEN_PATTERNS` matching the line
(`FORBIDDEN_PATTERNS.find(...)`). -/
def firedPat (line : List Char) : Option ForbiddenPat :=
  FORBIDDEN_PATTERNS.find? fun p => testPat p.matchAt line

/-- The per-line redaction of `sanitizeReadOnlyAnalysisOutput`: lines in a
fence, with an inline code span, or shaped as bullets are replaced
wholesale (keeping the bullet prefix); prose lines have only the matched
substring replaced. -/
def redactLine (p : ForbiddenPat) (inFence : Bool) (line : List Char) : List Char :=
  if inFence || line.contains backtickChar || bulletTest line then
    line.take (bulletPrefixLen line) ++ redactionPlaceholder.data
  else
    match firstMatchFrom p.matchAt line with
    | some (s, e) => line.take s ++ "[REDACTED]".data ++ line.drop e
    | none => line

def addUnique (xs : List String) (x : String) : List String :=
  if xs.contains x then xs else xs ++ [x]

/-- The line-mapping loop of `sanitizeReadOnlyAnalysisOutput`: fence
delimiter lines toggle the fence state and are never themselves tested
against the patterns. -/
def sanitizeGo (inFence : Bool) (reasons : List String) (changed : Bool) :
    List (List Char) → List (List Char) × List String × Bool
  | [] => ([], reasons, changed)
  | line :: rest =>
    if isPrefixL "```".data (trimL line) then
      let (out, rs, ch) := sanitizeGo (!inFence) reasons changed rest
      (line :: out, rs, ch)
    else
      match firedPat line with
      | none =>
        let (out, rs, ch) := sanitizeGo inFence reasons changed rest
        (line :: out, rs, ch)
      | some p =>
        let (out, rs, ch) := sanitizeGo inFence (addUnique reasons p.str) true rest
        (redactLine p inFence line :: out, rs, ch)

structure SanitizeResult where
  analysis : String
  redacted : Bool
  reasons : List String
deriving DecidableEq

def safetyNoteBanner : String :=
  "### Safety Note\nPotentially unsafe remediation commands were removed from this analysis.\n"

/-- `sanitizeReadOnlyAnalysisOutput` (`outputSafety.ts:46-95`). -/
def sanitizeReadOnlyAnalysisOutput (analysis : String) : SanitizeResult :=
  let (out, reasons, changed) := sanitizeGo false [] false (splitOnCharL '\n' analysis.data)
  if changed then
    ⟨safetyNoteBanner ++ String.intercalate "\n" (out.map String.mk), true, reasons⟩
  else ⟨analysis, false, []⟩

/-! ### Remaining derived definitions and concrete fixtures -/

/-- The effective aggregator query produced by the batch `selectors` branch
(`route.ts:428-443`): each caller-supplied selector string is validated and
normalized by `validateAllowedLokiSelector`, and the resulting string is
used as the aggregator `query` parameter by `collectLokiLogs`
(`logCollector.ts:553,569`). -/
def lokiSelectorsBranchQuery (enabled : Bool) (rules : LokiRules)
    (selector : String) : Except HErr String :=
  validateAllowedLokiSelector enabled rules selector

/-- Total byte weight of a list of output lines, each counted with its
trailing newline (the accumulation unit of the byte-cap loop). -/
def lineBytesSum (xs : List String) : Nat :=
  (xs.map (fun x => utf8Len x + 1)).sum

/-- A concrete rules document: no job pinning, labels `host`/`unit`/`job`
allowed, host `owonto` and unit `sshd.service` allowlisted, no patterns. -/
def demoLokiRules : LokiRules :=
  ⟨none, ["host", "unit", "job"], ["owonto"], ["sshd.service"], none, none⟩

/-- An eight-byte ASCII file content (`"abcdefgh"`). -/
def demoBytes : List Nat := [97, 98, 99, 100, 101, 102, 103, 104]

/-- A 4000-character stderr payload. -/
def longStderr : String := String.mk (List.replicate 4000 'e')

/-- The batch worker of the five-item scenario: item 3 (0-indexed 2) fails
with a 502, the others succeed; the `try`/`catch` wrapper turns the failure
into an error result. -/
def f5 (i : Nat) : BatchItemResult :=
  batchWorkerWrap ("t" ++ toString i)
    (if i = 2 then .error ⟨502, "boom"⟩ else .ok "fine")

/-- One concrete completing schedule for 5 items and
`min(concurrency, items.length) = 2` runners. -/
def demoSched : List Nat := [0, 1, 0, 1, 0, 1, 0, 1, 0, 0]

/-! ## Supporting lemmas -/

theorem listLeChar_total : ∀ as bs, listLeChar as bs = true ∨ listLeChar bs as = true
  | [], _ => Or.inl rfl
  | _ :: _, [] => Or.inr rfl
  | a :: as, b :: bs => by
    by_cases hab : a < b
    · left; simp [listLeChar, hab]
    · by_cases hba : b < a
      · right; simp [listLeChar, hba]
      · rcases listLeChar_total as bs with h | h
        · left; simp [listLeChar, hab, hba, h]
        · right; simp [listLeChar, hab, hba, h]

theorem listLeChar_antisymm : ∀ as bs, listLeChar as bs = true → listLeChar bs as = true → as = bs
  | [], [], _, _ => rfl
  | [], _ :: _, _, h => by simp [listLeChar] at h
  | _ :: _, [], h, _ => by simp [listLeChar] at h
  | a :: as, b :: bs, h1, h2 => by
    by_cases hab : a < b
    · simp [listLeChar, hab, asymm hab] at h2
    · by_cases hba : b < a
      · simp [listLeChar, hab, hba] at h1
      · have hchar : a = b := le_antisymm (le_of_not_lt hba) (le_of_not_lt hab)
        subst hchar
        simp only [listLeChar, lt_irrefl, if_neg, if_false] at h1 h2
        rw [listLeChar_antisymm as bs (by simpa using h1) (by simpa using h2)]

theorem listLeChar_trans : ∀ as bs cs, listLeChar as bs = true → listLeChar bs cs = true →
    listLeChar as cs = true
  | [], _, _, _, _ => rfl
  | _ :: _, [], _, h1, _ => by simp [listLeChar] at h1
  | _ :: _, _ :: _, [], _, h2 => by simp [listLeChar] at h2
  | a :: as, b :: bs, c :: cs, h1, h2 => by
    by_cases hab : a < b
    · by_cases hbc : b < c
      · simp [listLeChar, lt_trans hab hbc]
      · by_cases hcb : c < b
        · simp [listLeChar, hbc, hcb] at h2
        · have hbceq : b = c := le_antisymm (le_of_not_lt hcb) (le_of_not_lt hbc)
          subst hbceq; simp [listLeChar, hab]
    · by_cases hba : b < a
      · simp [listLeChar, hab, hba] at h1
      · have heq : a = b := le_antisymm (le_of_not_lt hba) (le_of_not_lt hab)
        subst heq
        simp only [listLeChar, lt_irrefl, if_false] at h1
        by_cases hac : a < c
        · simp [listLeChar, hac]
        · by_cases hca : c < a
          · simp [listLeChar, hac, hca] at h2
          · simp only [listLeChar, hac, hca, if_neg, if_false, lt_irrefl] at h2 ⊢
            exact listLeChar_trans as bs cs h1 h2

theorem localeLe_total (a b : String) : localeLe a b = true ∨ localeLe b a = true := by
  unfold localeLe
  by_cases h : a.data.map Char.toLower = b.data.map Char.toLower
  · simp only [h, if_true, eq_self_iff_true]
    simpa [h] using listLeChar_total a.data b.data
  · have h' : ¬ b.data.map Char.toLower = a.data.map Char.toLower := fun e => h e.symm
    simp only [h, h', if_false]
    exact listLeChar_total (a.data.map Char.toLower) (b.data.map Char.toLower)

theorem localeLe_antisymm {a b : String} (h1 : localeLe a b = true)
    (h2 : localeLe b a = true) : a = b := by
  unfold localeLe at h1 h2
  by_cases h : a.data.map Char.toLower = b.data.map Char.toLower
  · rw [if_pos h] at h1
    rw [if_pos h.symm] at h2
    exact congrArg String.mk (listLeChar_antisymm _ _ h1 h2)
  · have h' : ¬ b.data.map Char.toLower = a.data.map Char.toLower := fun e => h e.symm
    rw [if_neg h] at h1
    rw [if_neg h'] at h2
    exact absurd (listLeChar_antisymm _ _ h1 h2) h

theorem localeLe_trans {a b c : String} (h1 : localeLe a b = true)
    (h2 : localeLe b c = true) : localeLe a c = true := by
  unfold localeLe at h1 h2 ⊢
  by_cases hab : a.data.map Char.toLower = b.data.map Char.toLower
  · by_cases hbc : b.data.map Char.toLower = c.data.map Char.toLower
    · have hac : a.data.map Char.toLower = c.data.map Char.toLower := hab.trans hbc
      rw [if_pos hab] at h1
      rw [if_pos hbc] at h2
      rw [if_pos hac]
      exact listLeChar_trans _ _ _ h1 h2
    · have hac : ¬ a.data.map Char.toLower = c.data.map Char.toLower := fun e =>
        hbc (hab.symm.trans e)
      rw [if_neg hbc] at h2
      rw [if_neg hac, hab]
      exact h2
  · by_cases hbc : b.data.map Char.toLower = c.data.map Char.toLower
    · have hac : ¬ a.data.map Char.toLower = c.data.map Char.toLower := fun e =>
        hab (e.trans hbc.symm)
      rw [if_neg hab] at h1
      rw [if_neg hac, ← hbc]
      exact h1
    · by_cases hac : a.data.map Char.toLower = c.data.map Char.toLower
      · rw [if_neg hab] at h1
        rw [if_neg hbc, ← hac] at h2
        exact absurd (listLeChar_antisymm _ _ h1 h2) hab
      · rw [if_neg hab] at h1
        rw [if_neg hbc] at h2
        rw [if_neg hac]
        exact listLeChar_trans _ _ _ h1 h2

theorem insertBy_perm (le : α → α → Bool) (a : α) :
    ∀ l : List α, (insertBy le a l).Perm (a :: l)
  | [] => List.Perm.refl _
  | b :: bs => by
    by_cases h : le a b
    · simp [insertBy, h]
    · simp only [insertBy, h, if_false]
      exact ((insertBy_perm le a bs).cons b).trans (List.Perm.swap a b bs)

theorem sortJs_perm (le : α → α → Bool) : ∀ l : List α, (sortJs le l).Perm l
  | [] => List.Perm.refl _
  | a :: as =>
    (insertBy_perm le a (sortJs le as)).trans ((sortJs_perm le as).cons a)

theorem pairwise_insertBy (le : α → α → Bool)
    (htot : ∀ a b, le a b = true ∨ le b a = true)
    (htrans : ∀ a b c, le a b = true → le b c = true → le a c = true)
    (a : α) : ∀ m : List α, m.Pairwise (fun x y => le x y = true) →
      (insertBy le a m).Pairwise (fun x y => le x y = true)
  | [], _ => by simp [insertBy]
  | b :: bs, hm => by
    rcases List.pairwise_cons.mp hm with ⟨hb, hbs⟩
    by_cases h : le a b
    · simp only [insertBy, h, if_true]
      refine List.Pairwise.cons ?_ hm
      intro x hx
      rcases List.mem_cons.mp hx with rfl | hx
      · exact h
      · exact htrans a b x h (hb x hx)
    · simp only [insertBy, h, if_false]
      refine List.Pairwise.cons ?_ (pairwise_insertBy le htot htrans a bs hbs)
      intro x hx
      have hx' : x ∈ a :: bs := (insertBy_perm le a bs).mem_iff.mp hx
      rcases List.mem_cons.mp hx' with rfl | hx'
      · rcases htot x b with h' | h'
        · exact absurd h' h
        · exact h'
      · exact hb x hx'

theorem sortJs_pairwise (le : α → α → Bool)
    (htot : ∀ a b, le a b = true ∨ le b a = true)
    (htrans : ∀ a b c, le a b = true → le b c = true → le a c = true) :
    ∀ l : List α, (sortJs le l).Pairwise (fun x y => le x y = true)
  | [] => List.Pairwise.nil
  | a :: as =>
    pairwise_insertBy le htot htrans a (sortJs le as) (sortJs_pairwise le htot htrans as)

/-- Two sorted lists that are permutations of each other are equal, needing
antisymmetry only on the elements actually present. -/
theorem sorted_perm_eq {R : α → α → Prop} :
    ∀ l₁ l₂ : List α, l₁.Perm l₂ → l₁.Pairwise R → l₂.Pairwise R →
      (∀ a b, a ∈ l₁ → b ∈ l₁ → R a b → R b a → a = b) → l₁ = l₂
  | [], l₂, hp, _, _, _ => hp.nil_eq
  | a :: t, [], hp, _, _, _ => absurd hp.symm (by simp)
  | a :: t, b :: t₂, hp, h1, h2, hanti => by
    have hab : a = b := by
      by_cases hne : a = b
      · exact hne
      · have hamem : a ∈ b :: t₂ := hp.mem_iff.mp (List.mem_cons_self a t)
        have hbmem : b ∈ a :: t := hp.mem_iff.mpr (List.mem_cons_self b t₂)
        have hat2 : a ∈ t₂ := by
          rcases List.mem_cons.mp hamem with h | h
          · exact absurd h hne
          · exact h
        have hbt : b ∈ t := by
          rcases List.mem_cons.mp hbmem with h | h
          · exact absurd h.symm hne
          · exact h
        have hR1 : R a b := (List.pairwise_cons.mp h1).1 b hbt
        have hR2 : R b a := (List.pairwise_cons.mp h2).1 a hat2
        exact hanti a b (List.mem_cons_self a t) (List.mem_cons_of_mem a hbt) hR1 hR2
    subst hab
    have ht := sorted_perm_eq t t₂ hp.cons_inv (List.pairwise_cons.mp h1).2
      (List.pairwise_cons.mp h2).2
      (fun x y hx hy => hanti x y (List.mem_cons_of_mem a hx) (List.mem_cons_of_mem a hy))
    rw [ht]

/-- `insertBy` splits around the inserted element: the prefix is exactly
the elements the new element does not compare `le` to. -/
theorem insertBy_split (le : α → α → Bool) (a : α) :
    ∀ l : List α, insertBy le a l =
      l.takeWhile (fun b => !le a b) ++ a :: l.dropWhile (fun b => !le a b)
  | [] => rfl
  | b :: bs => by
    by_cases h : le a b
    · simp [insertBy, h, List.takeWhile_cons, List.dropWhile_cons]
    · simp [insertBy, h, List.takeWhile_cons, List.dropWhile_cons, insertBy_split le a bs]

theorem filter_eq_nil_of_all_false (p : α → Bool) :
    ∀ l : List α, (∀ x ∈ l, p x = false) → l.filter p = []
  | [], _ => rfl
  | a :: as, h => by
    have ha := h a (List.mem_cons_self a as)
    rw [List.filter_cons, ha]
    simpa using filter_eq_nil_of_all_false p as (fun x hx => h x (List.mem_cons_of_mem a hx))

/-- Stability of `sortJs` in filter form: the elements picked out by a
key-exact predicate `p` (any two `p`-elements compare `le` both ways, as
same-key elements do) keep their original relative order. -/
theorem sortJs_filter_eq (le : α → α → Bool) (p : α → Bool)
    (hkey : ∀ x y, p x = true → p y = true → le x y = true ∧ le y x = true) :
    ∀ l : List α, (sortJs le l).filter p = l.filter p
  | [] => rfl
  | a :: as => by
    have ih := sortJs_filter_eq le p hkey as
    have hsplit : (sortJs le as).takeWhile (fun b => !le a b) ++
        (sortJs le as).dropWhile (fun b => !le a b) = sortJs le as :=
      List.takeWhile_append_dropWhile ..
    have hjoin : ((sortJs le as).takeWhile (fun b => !le a b)).filter p ++
        ((sortJs le as).dropWhile (fun b => !le a b)).filter p = (sortJs le as).filter p := by
      rw [← List.filter_append, hsplit]
    cases hpa : p a with
    | true =>
      have hpre : ∀ x ∈ (sortJs le as).takeWhile (fun b => !le a b), p x = false := by
        intro x hx
        have hnle := List.mem_takeWhile_imp hx
        cases hpx : p x with
        | false => rfl
        | true =>
          have hle := (hkey a x hpa hpx).1
          rw [hle] at hnle
          simp at hnle
      have hTnil := filter_eq_nil_of_all_false p _ hpre
      have hD : ((sortJs le as).dropWhile (fun b => !le a b)).filter p = as.filter p := by
        rw [hTnil, List.nil_append] at hjoin
        rw [hjoin, ih]
      calc (sortJs le (a :: as)).filter p
          = (((sortJs le as).takeWhile (fun b => !le a b)).filter p) ++
            ((a :: (sortJs le as).dropWhile (fun b => !le a b)).filter p) := by
            rw [sortJs, insertBy_split, List.filter_append]
        _ = a :: as.filter p := by
            rw [hTnil, List.nil_append, List.filter_cons, hpa, hD]
            simp
        _ = (a :: as).filter p := by rw [List.filter_cons, hpa]; simp
    | false =>
      calc (sortJs le (a :: as)).filter p
          = (((sortJs le as).takeWhile (fun b => !le a b)).filter p) ++
            ((a :: (sortJs le as).dropWhile (fun b => !le a b)).filter p) := by
            rw [sortJs, insertBy_split, List.filter_append]
        _ = (((sortJs le as).takeWhile (fun b => !le a b)).filter p) ++
            (((sortJs le as).dropWhile (fun b => !le a b)).filter p) := by
            rw [List.filter_cons, hpa]
            simp
        _ = as.filter p := by rw [hjoin, ih]
        _ = (a :: as).filter p := by rw [List.filter_cons, hpa]; simp

/-! ## Claim theorems -/

/-- C8 counterexample: a request with `hours = 200` is rejected by the
request schema's `.max(168)` bound (status 400 at validation), not silently
clamped; and `clampHours` maps the schema-acceptable value `hours = 1/2` to
an effective `0`, which lies outside every interval `[ε, MAX_HOURS]` with
`ε > 0`. -/
theorem clampHours_claim_counterexample :
    analyzeHoursAccepted (some 200) = false ∧
    clampHours 168 (some (1 / 2 : ℚ)) = .ok 0 := by
  constructor
  · decide
  · show (if (1 / 2 : ℚ) ≤ 0 then
        (Except.error ⟨400, "hours must be a positive number"⟩ : Except HErr Int)
      else .ok (min (Rat.floor (1 / 2 : ℚ)) 168)) = .ok 0
    rw [if_neg (by norm_num)]
    norm_num [Rat.floor_def']

/-- C8 (amended): `hours` above the schema cap 168 is rejected with 400 at
request validation (not clamped); for values passing `clampHours`'
positivity/finiteness check, the effective value is
`min(floor(hours), MAX_HOURS)`, which lies in `[0, MAX_HOURS]` (hours in
`(0,1)` floor to `0`, so no positive lower bound holds); only non-positive
or non-finite hours are rejected by `clampHours`, with status 400. -/
theorem clampHours_contract :
    (∀ maxHours : Int, clampHours maxHours none =
      .error ⟨400, "hours must be a positive number"⟩) ∧
    (∀ (maxHours : Int) (q : ℚ), q ≤ 0 → clampHours maxHours (some q) =
      .error ⟨400, "hours must be a positive number"⟩) ∧
    (∀ (maxHours : Int) (q : ℚ), 0 < q →
      clampHours maxHours (some q) = .ok (min (Rat.floor q) maxHours)) ∧
    (∀ (maxHours : Int) (q : ℚ), 0 < q → 0 ≤ maxHours →
      ∀ v, clampHours maxHours (some q) = .ok v → 0 ≤ v ∧ v ≤ maxHours) ∧
    analyzeHoursAccepted (some 200) = false := by
  refine ⟨fun _ => rfl, ?_, ?_, ?_, by decide⟩
  · intro maxH q hq
    show (if q ≤ 0 then
        (Except.error ⟨400, "hours must be a positive number"⟩ : Except HErr Int)
      else .ok (min (Rat.floor q) maxH)) = _
    rw [if_pos hq]
  · intro maxH q hq
    show (if q ≤ 0 then
        (Except.error ⟨400, "hours must be a positive number"⟩ : Except HErr Int)
      else .ok (min (Rat.floor q) maxH)) = _
    rw [if_neg (not_le.mpr hq)]
  · intro maxH q hq hm v hv
    have hv : (if q ≤ 0 then
        (Except.error ⟨400, "hours must be a positive number"⟩ : Except HErr Int)
      else .ok (min (Rat.floor q) maxH)) = .ok v := hv
    rw [if_neg (not_le.mpr hq)] at hv
    have hveq : v = min (Rat.floor q) maxH := by
      cases hv
      rfl
    subst hveq
    have hfloor : (0 : Int) ≤ Rat.floor q := by
      rw [Rat.le_floor]
      exact_mod_cast hq.le
    exact ⟨le_min hfloor hm, min_le_right _ _⟩

/-- C8 witness: the amended contract at `hours = 200`, `MAX_HOURS = 168`
(the collector-level clamp) and at a non-finite hours value. -/
theorem clampHours_contract_witness :
    clampHours 168 (some (200 : ℚ)) = .ok 168 ∧
    clampHours 168 none = .error ⟨400, "hours must be a positive number"⟩ := by
  constructor
  · have h := clampHours_contract.2.2.1 168 (200 : ℚ) (by norm_num)
    rw [h]
    norm_num [Rat.floor_def']
  · exact clampHours_contract.1 168

/-- C3: the scope guard in filters mode: with scope labels required and
`allowUnscoped` not set, the guard passes iff the filter set carries a
`host` or `unit` label, and fails with status 400 otherwise; setting
`allowUnscoped`, or disabling the requirement, always passes.  In
particular `{host: "owonto"}` passes the guard and `{job: "x"}` fails. -/
theorem scopeGuard_contract :
    (∀ (input : LokiBatch) (eff : String) (fs : List (String × String)),
      input.query = none → input.filters = some fs → input.allowUnscoped = false →
      enforceScopeGuard true input eff =
        (if hasScopeLabelsInFilters fs then .ok ()
         else .error ⟨400,
           "Loki query must include host or unit label (or set allowUnscoped=true)"⟩)) ∧
    (∀ (input : LokiBatch) (eff : String), input.allowUnscoped = true →
      enforceScopeGuard true input eff = .ok ()) ∧
    (∀ (input : LokiBatch) (eff : String), enforceScopeGuard false input eff = .ok ()) ∧
    hasScopeLabelsInFilters [("host", "owonto")] = true ∧
    hasScopeLabelsInFilters [("job", "x")] = false := by
  refine ⟨?_, ?_, ?_, by decide, by decide⟩
  · intro input eff fs hq hf ha
    unfold enforceScopeGuard
    rw [ha, hq, hf]
    cases h : hasScopeLabelsInFilters fs <;> simp [h]
  · intro input eff ha
    unfold enforceScopeGuard
    rw [ha]
    simp
  · intro input eff
    unfold enforceScopeGuard
    simp

/-- C3 witness: the guard at the two concrete filter sets of the claim
(`requireScopeLabels = true`, `allowUnscoped` omitted). -/
theorem scopeGuard_contract_witness :
    enforceScopeGuard true ⟨"loki", none, some [("host", "owonto")], none, false⟩ "" = .ok () ∧
    enforceScopeGuard true ⟨"loki", none, some [("job", "x")], none, false⟩ "" =
      .error ⟨400, "Loki query must include host or unit label (or set allowUnscoped=true)"⟩ := by
  constructor
  · rw [scopeGuard_contract.1 _ "" [("host", "owonto")] rfl rfl rfl]
    decide
  · rw [scopeGuard_contract.1 _ "" [("job", "x")] rfl rfl rfl]
    decide

/-- C1 counterexample: with allowlist entry `/var/log` (an existing
directory) and requested path `/var/log/syslog` (an existing file nested
under it), the spec's realpath/nesting algorithm permits the path, but the
collector's allowlist gate — an exact match on `path.resolve`d strings —
rejects it with 403.  (The realpath/nesting algorithm exists only in the
separate `tail_log` action's `pathIsAllowlisted`, not in the file
collector.) -/
theorem fileAllowlist_claim_counterexample :
    specPathAllowed demoRealpath demoIsDir ["/var/log"] "/var/log/syslog" = true ∧
    fileTargetCheck "/" "/var/log" "/var/log/syslog" =
      .error ⟨403, "file target is not in ALLOWED_LOG_FILES"⟩ := by
  constructor
  · decide
  · decide

/-- C1 (amended): the file collector permits a requested target iff its
`path.resolve`d form is exactly a member of the `path.resolve`d
`ALLOWED_LOG_FILES` entries — no filesystem canonicalization (realpath)
happens and nesting under an allowed directory grants nothing — and every
non-member is rejected with status 403. -/
theorem fileAllowlist_exact_resolve_match (cwd env target : String) :
    (fileTargetCheck cwd env target = .ok () ↔
      (parseAllowedFilePaths cwd env).contains (resolvePath cwd target) = true) ∧
    ((parseAllowedFilePaths cwd env).contains (resolvePath cwd target) = false →
      fileTargetCheck cwd env target =
        .error ⟨403, "file target is not in ALLOWED_LOG_FILES"⟩) := by
  unfold fileTargetCheck
  constructor
  · cases h : (parseAllowedFilePaths cwd env).contains (resolvePath cwd target) <;>
      simp [h]
  · intro h
    rw [h]
    simp

/-- C1 witness: the amended contract applied at the counterexample input,
discharging its non-membership hypothesis. -/
theorem fileAllowlist_exact_resolve_match_witness :
    fileTargetCheck "/" "/var/log" "/var/log/syslog" =
      .error ⟨403, "file target is not in ALLOWED_LOG_FILES"⟩ :=
  (fileAllowlist_exact_resolve_match "/" "/var/log" "/var/log/syslog").2 (by decide)

/-- C2 counterexample: the batch `selectors` branch accepts caller-supplied
selector strings.  For the already-canonical caller selector
`{host="owonto"}` (with `host` allowlisted), validation and normalization
return the caller's exact string, which is then sent to the aggregator as
the query — so caller-supplied selector text does reach the aggregator
verbatim, and the effective selector is not built from a `filters` label
map on this path. -/
theorem lokiSelectorsBranch_passthrough_counterexample :
    lokiSelectorsBranchQuery true demoLokiRules "\x7bhost=\"owonto\"\x7d" =
      .ok "\x7bhost=\"owonto\"\x7d" := by
  decide

/-- C2 (amended): in the query/filters mode, a non-empty `query` string is
always rejected with 403 and every successful build takes its selector
exclusively from the validated `filters` label map (so no raw query text
influences it); the batch `selectors` mode, however, accepts caller
selector strings, which are parsed, label-validated and canonically
re-rendered — an already-canonical caller selector passes through
unchanged. -/
theorem buildLokiQuery_no_raw_query :
    (∀ (rules : LokiRules) (input : LokiBatch) (q : String),
      input.source = "loki" → input.query = some q → jsTrim q ≠ "" →
      buildEffectiveLokiQuery rules input =
        .error ⟨403, "raw Loki query is not allowed; use filters"⟩) ∧
    (∀ (rules : LokiRules) (input : LokiBatch) (s : String),
      buildEffectiveLokiQuery rules input = .ok s →
      ∃ fs, input.filters = some fs ∧ validateLokiLabels rules fs = .ok () ∧
        s = renderLokiSelector fs input.contains) := by
  constructor
  · intro rules input q hsource hquery htrim
    unfold buildEffectiveLokiQuery
    rw [if_neg (by simp [hsource])]
    rw [if_pos (by simp [queryNonEmpty, hquery, htrim])]
  · intro rules input s h
    unfold buildEffectiveLokiQuery at h
    by_cases hsource : input.source ≠ "loki"
    · rw [if_pos hsource] at h
      exact absurd h (by simp)
    · rw [if_neg hsource] at h
      by_cases hq : queryNonEmpty input.query = true
      · rw [if_pos hq] at h
        exact absurd h (by simp)
      · rw [if_neg hq] at h
        cases hf : input.filters with
        | none => rw [hf] at h; exact absurd h (by simp)
        | some fs =>
          rw [hf] at h
          have h' : (match validateLokiLabels rules fs with
            | Except.error e => (Except.error e : Except HErr String)
            | Except.ok _ => Except.ok (renderLokiSelector fs input.contains)) =
              Except.ok s := h
          cases hv : validateLokiLabels rules fs with
          | error e => rw [hv] at h'; exact absurd h' (by simp)
          | ok u =>
            cases u
            rw [hv] at h'
            refine ⟨fs, rfl, hv, ?_⟩
            cases h'
            rfl

/-- C2 witness: the 403 branch of the amended contract at a concrete
non-empty raw query. -/
theorem buildLokiQuery_no_raw_query_witness :
    buildEffectiveLokiQuery demoLokiRules
      ⟨"loki", some "rate(\x7bjob=\"x\"\x7d[1m])", none, none, false⟩ =
      .error ⟨403, "raw Loki query is not allowed; use filters"⟩ :=
  buildLokiQuery_no_raw_query.1 demoLokiRules
    ⟨"loki", some "rate(\x7bjob=\"x\"\x7d[1m])", none, none, false⟩
    "rate(\x7bjob=\"x\"\x7d[1m])" rfl rfl (by decide)

theorem batchStep_results_ok {R : Type} (f : Nat → R) (n : Nat) (s : BatchState R) (k : Nat)
    (h : ∀ i v, s.results[i]? = some (some v) → v = f i) :
    ∀ i v, (batchStep f n s k).results[i]? = some (some v) → v = f i := by
  intro i v hv
  unfold batchStep at hv
  cases hp : s.pending[k]? with
  | none => rw [hp] at hv; exact h i v hv
  | some o =>
    cases o with
    | none =>
      rw [hp] at hv
      by_cases hn : s.nextIndex < n
      · rw [if_pos hn] at hv
        exact h i v hv
      · rw [if_neg hn] at hv
        exact h i v hv
    | some j =>
      rw [hp] at hv
      simp only [List.getElem?_set] at hv
      by_cases hij : j = i
      · rw [if_pos hij] at hv
        by_cases hlen : j < s.results.length
        · rw [if_pos hlen] at hv
          cases hv
          rw [hij]
        · rw [if_neg hlen] at hv
          exact absurd hv (by simp)
      · rw [if_neg hij] at hv
        exact h i v hv

theorem runBatch_results_ok {R : Type} (f : Nat → R) (n runners : Nat) :
    ∀ (sched : List Nat) (s : BatchState R),
      (∀ i v, s.results[i]? = some (some v) → v = f i) →
      ∀ i v, (sched.foldl (batchStep f n) s).results[i]? = some (some v) → v = f i
  | [], _, h => h
  | k :: ks, s, h =>
    runBatch_results_ok f n runners ks (batchStep f n s k) (batchStep_results_ok f n s k h)

/-- C9: under every scheduler interleaving, a filled `results[i]` holds
exactly the worker's outcome for `items[i]` (index correspondence is
schedule-independent); and in the concrete five-item scenario with
`min(concurrency, items) = 2` runners where item 3 (index 2) throws, the
schedule completes all items, the failing item alone becomes the `Err`
entry at index 2, and the tally is `ok = 4`, `failed = 1`. -/
theorem runConcurrent_contract :
    (∀ (R : Type) (f : Nat → R) (n runners : Nat) (sched : List Nat) (i : Nat) (v : R),
      (runBatch f n runners sched).results[i]? = some (some v) → v = f i) ∧
    (runBatch f5 5 2 demoSched).results =
      [some (f5 0), some (f5 1), some (f5 2), some (f5 3), some (f5 4)] ∧
    f5 2 = .err "t2" 502 "boom" ∧
    (∀ i, i ≠ 2 → i < 5 → f5 i = .ok ("t" ++ toString i) "fine") ∧
    tallyOk ((runBatch f5 5 2 demoSched).results.filterMap id) = 4 ∧
    ((runBatch f5 5 2 demoSched).results.filterMap id).length -
      tallyOk ((runBatch f5 5 2 demoSched).results.filterMap id) = 1 := by
  refine ⟨?_, by decide, by decide, ?_, by decide, by decide⟩
  · intro R f n runners sched i v
    exact runBatch_results_ok f n runners sched (batchInit R runners n)
      (by
        intro i v hv
        simp only [batchInit, List.getElem?_replicate] at hv
        by_cases hi : i < n
        · rw [if_pos hi] at hv
          exact absurd hv (by simp)
        · rw [if_neg hi] at hv
          exact absurd hv (by simp)) i v
  · intro i hne hlt
    unfold f5 batchWorkerWrap
    rw [if_neg hne]

/-- C9 witness: the schedule-independence part applied to the concrete run:
index 2 of the five-item scenario resolves to the worker's value for item 2
(the `Err` entry). -/
theorem runConcurrent_contract_witness :
    BatchItemResult.err "t2" 502 "boom" = f5 2 :=
  runConcurrent_contract.1 BatchItemResult f5 5 2 demoSched 2
    (.err "t2" 502 "boom") (by decide)

theorem cmdStep_settled (command : String) (maxB : Nat) (s : CmdState) (ev : CmdEvent)
    (h : s.settled = true) : cmdStep command maxB s ev = s := by
  unfold cmdStep
  rw [h]
  rfl

theorem foldl_cmdStep_settled (command : String) (maxB : Nat) :
    ∀ (more : List CmdEvent) (s : CmdState), s.settled = true →
      more.foldl (cmdStep command maxB) s = s
  | [], _, _ => rfl
  | ev :: evs, s, h => by
    rw [List.foldl_cons, cmdStep_settled command maxB s ev h]
    exact foldl_cmdStep_settled command maxB evs s h

theorem cmdStep_isSome_eq_settled (command : String) (maxB : Nat) (s : CmdState)
    (ev : CmdEvent) (h : s.outcome.isSome = s.settled) :
    (cmdStep command maxB s ev).outcome.isSome = (cmdStep command maxB s ev).settled := by
  unfold cmdStep
  cases hs : s.settled with
  | true => simpa [hs] using h
  | false =>
    rw [hs] at h
    cases ev with
    | stdout chunk =>
      by_cases hover : maxB < utf8Len (s.stdoutAcc ++ chunk)
      · simp [hover]
      · simp [hover, h, hs]
    | stderr chunk => simp [h, hs]
    | timeoutFire => simp
    | spawnErr msg => simp
    | close code =>
      by_cases hc : code ≠ some 0
      · simp [hc]
      · simp [hc]

theorem runCmd_isSome_eq_settled (command : String) (maxB : Nat) :
    ∀ (tr : List CmdEvent) (s : CmdState), s.outcome.isSome = s.settled →
      (tr.foldl (cmdStep command maxB) s).outcome.isSome =
        (tr.foldl (cmdStep command maxB) s).settled
  | [], _, h => h
  | ev :: evs, s, h =>
    runCmd_isSome_eq_settled command maxB evs (cmdStep command maxB s ev)
      (cmdStep_isSome_eq_settled command maxB s ev h)

/-- C7 (amended): the command runner's outcomes.  Once settled, no later
event changes anything (so at most one of the outcomes, or success,
settles the call, and an outcome exists exactly when the call is settled);
the stdout byte cap is enforced on the very chunk whose arrival pushes the
accumulated byte length over `MAX_COMMAND_BYTES`, killing with 413; the
timer settles 504; a spawn error settles 500; a non-zero close settles 502
carrying the *full* trimmed stderr (or the exit code when stderr is blank)
— the code does not truncate stderr to its last ~300 characters — and a
zero close settles success with the accumulated stdout. -/
theorem runAllowedCommand_contract :
    (∀ (command : String) (maxB : Nat) (tr more : List CmdEvent),
      (runCmd command maxB tr).settled = true →
      runCmd command maxB (tr ++ more) = runCmd command maxB tr) ∧
    (∀ (command : String) (maxB : Nat) (tr : List CmdEvent),
      (runCmd command maxB tr).outcome.isSome = (runCmd command maxB tr).settled) ∧
    (∀ (command : String) (maxB : Nat) (s : CmdState) (chunk : String),
      s.settled = false → maxB < utf8Len (s.stdoutAcc ++ chunk) →
      (cmdStep command maxB s (.stdout chunk)).settled = true ∧
      (cmdStep command maxB s (.stdout chunk)).outcome =
        some (.error ⟨413, "command output exceeds MAX_COMMAND_BYTES limit"⟩)) ∧
    (∀ (command : String) (maxB : Nat) (s : CmdState), s.settled = false →
      (cmdStep command maxB s .timeoutFire).outcome =
        some (.error ⟨504, "log collection timed out for " ++ command⟩)) ∧
    (∀ (command : String) (maxB : Nat) (s : CmdState) (msg : String), s.settled = false →
      (cmdStep command maxB s (.spawnErr msg)).outcome =
        some (.error ⟨500, "failed to execute " ++ command ++ ": " ++ msg⟩)) ∧
    (∀ (command : String) (maxB : Nat) (s : CmdState) (code : Option Int),
      s.settled = false → code ≠ some 0 →
      (cmdStep command maxB s (.close code)).outcome =
        some (.error ⟨502, command ++ " failed: " ++
          (if jsTrim s.stderrAcc ≠ "" then jsTrim s.stderrAcc
           else "exit code " ++ jsCodeStr code)⟩)) ∧
    (∀ (command : String) (maxB : Nat) (s : CmdState), s.settled = false →
      (cmdStep command maxB s (.close (some 0))).outcome = some (.ok s.stdoutAcc)) := by
  refine ⟨?_, ?_, ?_, ?_, ?_, ?_, ?_⟩
  · intro command maxB tr more h
    unfold runCmd
    rw [List.foldl_append]
    exact foldl_cmdStep_settled command maxB more _ h
  · intro command maxB tr
    exact runCmd_isSome_eq_settled command maxB tr cmdInit rfl
  · intro command maxB s chunk hs hover
    constructor <;> simp [cmdStep, hs, hover]
  · intro command maxB s hs
    simp [cmdStep, hs]
  · intro command maxB s msg hs
    simp [cmdStep, hs]
  · intro command maxB s code hs hc
    simp [cmdStep, hs, hc]
  · intro command maxB s hs
    simp [cmdStep, hs]

/-- C7 counterexample to the "last ~300 characters of stderr" clause: a
run whose stderr is 4000 characters and which exits non-zero settles a 502
whose message carries the entire 4000-character stderr, not its
300-character tail. -/
theorem dropWhile_ws_replicate_e (n : Nat) :
    (List.replicate n 'e').dropWhile wsChar = List.replicate n 'e' := by
  cases n with
  | zero => rfl
  | succ m =>
    rw [List.replicate_succ, List.dropWhile_cons]
    simp [show wsChar 'e' = false from rfl]

theorem jsTrim_longStderr : jsTrim longStderr = longStderr := by
  show String.mk (trimLeftL (trimRightL (List.replicate 4000 'e'))) = longStderr
  unfold trimRightL trimLeftL
  rw [List.reverse_replicate, dropWhile_ws_replicate_e, List.reverse_replicate,
    dropWhile_ws_replicate_e]
  rfl

theorem longStderr_length : longStderr.length = 4000 := by
  show (String.mk (List.replicate 4000 'e')).length = 4000
  rw [String.length_mk, List.length_replicate]

theorem shortRep_length : (String.mk (List.replicate 300 'e')).length = 300 := by
  rw [String.length_mk, List.length_replicate]

theorem cmdStep_close_nonzero (command : String) (maxB : Nat) (s : CmdState)
    (code : Option Int) (hs : s.settled = false) (hc : code ≠ some 0) :
    (cmdStep command maxB s (.close code)).outcome =
      some (.error ⟨502, command ++ " failed: " ++
        (if jsTrim s.stderrAcc ≠ "" then jsTrim s.stderrAcc
         else "exit code " ++ jsCodeStr code)⟩) := by
  simp [cmdStep, hs, hc]

theorem runAllowedCommand_full_stderr_counterexample :
    (runCmd "journalctl" 2000000 [.stderr longStderr, .close (some 1)]).outcome =
      some (.error ⟨502, "journalctl failed: " ++ longStderr⟩) ∧
    longStderr.length = 4000 ∧
    "journalctl failed: " ++ longStderr ≠
      "journalctl failed: " ++ String.mk (List.replicate 300 'e') := by
  refine ⟨?_, longStderr_length, ?_⟩
  · have hne : jsTrim longStderr ≠ "" := by
      rw [jsTrim_longStderr]
      intro h
      have h2 := congrArg String.length h
      rw [longStderr_length] at h2
      exact absurd h2 (by decide)
    have h1 : runCmd "journalctl" 2000000 [.stderr longStderr, .close (some 1)] =
        cmdStep "journalctl" 2000000 ⟨false, "", longStderr, none⟩ (.close (some 1)) := rfl
    rw [h1, cmdStep_close_nonzero "journalctl" 2000000 ⟨false, "", longStderr, none⟩
      (some 1) rfl (by decide)]
    rw [show (⟨false, "", longStderr, none⟩ : CmdState).stderrAcc = longStderr from rfl]
    rw [if_pos hne, jsTrim_longStderr]
    rfl
  · intro heq
    have h2 := congrArg String.length heq
    rw [String.length_append, String.length_append, longStderr_length,
      shortRep_length] at h2
    omega

/-- C7 witness: the amended contract's non-zero-exit case applied at the
counterexample's pre-close state. -/
theorem runAllowedCommand_contract_witness :
    (cmdStep "journalctl" 2000000 ⟨false, "", longStderr, none⟩ (.close (some 1))).outcome =
      some (.error ⟨502, "journalctl failed: " ++
        (if jsTrim longStderr ≠ "" then jsTrim longStderr
         else "exit code " ++ jsCodeStr (some 1))⟩) :=
  runAllowedCommand_contract.2.2.2.2.2.1 "journalctl" 2000000
    ⟨false, "", longStderr, none⟩ (some 1) rfl (by decide)

theorem clampMaxLines_pos (maxLinesCap maxLines : Int) (h : 0 < maxLines) :
    clampMaxLines maxLinesCap maxLines = .ok (min maxLines maxLinesCap) := by
  unfold clampMaxLines
  rw [if_neg (not_le.mpr h)]

/-- The branch-level characterization of `readFileIncremental` once the
line clamp passes. -/
theorem readFileIncremental_eq (maxFileBytes : Nat) (maxLinesCap : Int)
    (content : List Nat) (cursor maxLines : Int) (hml : 0 < maxLines) :
    readFileIncremental maxFileBytes maxLinesCap content cursor maxLines =
      .ok (
        let size := content.length
        let requestedCursor := (max 0 cursor).toNat
        let rotated := decide (size < requestedCursor)
        let fromCursor := if size < requestedCursor then 0 else min requestedCursor size
        if size ≤ fromCursor then
          ⟨"", fromCursor, fromCursor, rotated, false⟩
        else
          let availableBytes := size - fromCursor
          let readBytesLimit := min maxFileBytes availableBytes
          let truncatedByBytes := decide (maxFileBytes < availableBytes)
          let slice := (content.drop fromCursor).take readBytesLimit
          ⟨String.intercalate "\n"
              (takeLast (min maxLines maxLinesCap).toNat
                (splitLinesJs (trimRightL (utf8Decode slice)))),
            fromCursor, fromCursor + slice.length, rotated, truncatedByBytes⟩) := by
  unfold readFileIncremental
  rw [clampMaxLines_pos maxLinesCap maxLines hml]
  rfl

/-- C4 (amended): the cursor contract of the incremental reader.  A cursor
beyond the current size signals rotation and restarts at 0; a cursor at or
past end-of-data returns empty logs with an unchanged cursor; otherwise
exactly `min(maxBytes, size - fromCursor)` bytes are read, `nextCursor`
advances only to the last byte read (never past the data), and
`truncatedByBytes` is set exactly when the available range exceeds the
cap.  A second call with `cursor = previous.nextCursor` on an unchanged
file returns empty logs and an unchanged cursor *provided the previous
call was not byte-truncated* (a byte-truncated call leaves
`nextCursor < size`, so the follow-up call returns more data instead). -/
theorem readFileIncremental_contract (maxFileBytes : Nat) (maxLinesCap : Int)
    (content : List Nat) (cursor maxLines : Int) (hml : 0 < maxLines) :
    ∃ r, readFileIncremental maxFileBytes maxLinesCap content cursor maxLines = .ok r ∧
      (r.rotated = true ↔ content.length < (max 0 cursor).toNat) ∧
      (content.length < (max 0 cursor).toNat → r.fromCursor = 0) ∧
      (content.length ≤ r.fromCursor →
        r.logs = "" ∧ r.nextCursor = r.fromCursor ∧ r.truncatedByBytes = false) ∧
      (r.fromCursor < content.length →
        r.nextCursor = r.fromCursor + min maxFileBytes (content.length - r.fromCursor) ∧
        r.nextCursor ≤ content.length ∧
        (r.truncatedByBytes = true ↔ maxFileBytes < content.length - r.fromCursor)) ∧
      (r.truncatedByBytes = false →
        readFileIncremental maxFileBytes maxLinesCap content (Int.ofNat r.nextCursor) maxLines =
          .ok ⟨"", content.length, content.length, false, false⟩) := by
  have hsecond : readFileIncremental maxFileBytes maxLinesCap content
      (Int.ofNat content.length) maxLines =
      .ok ⟨"", content.length, content.length, false, false⟩ := by
    rw [readFileIncremental_eq maxFileBytes maxLinesCap content
      (Int.ofNat content.length) maxLines hml]
    have hmax : (max 0 (Int.ofNat content.length)).toNat = content.length := by
      show (max 0 ((content.length : Nat) : Int)).toNat = content.length
      omega
    simp [hmax]
  by_cases hrot : content.length < (max 0 cursor).toNat
  · by_cases hz : content.length = 0
    · have hr : readFileIncremental maxFileBytes maxLinesCap content cursor maxLines =
          .ok ⟨"", 0, 0, true, false⟩ := by
        rw [readFileIncremental_eq maxFileBytes maxLinesCap content cursor maxLines hml]
        have hrot' : 0 < (max 0 cursor).toNat := hz ▸ hrot
        simp only [hz, hrot', decide_True, ite_true, le_refl, if_pos]
      refine ⟨_, hr, iff_of_true rfl hrot, fun _ => rfl, fun _ => ⟨rfl, rfl, rfl⟩, ?_, ?_⟩
      · intro h
        have h' : (0 : Nat) < content.length := h
        omega
      · intro _
        have h0 : Int.ofNat ((⟨"", 0, 0, true, false⟩ : IncrResult).nextCursor) =
            Int.ofNat content.length := by rw [hz]
        rw [h0]
        exact hsecond
    · have hpos : 0 < content.length := Nat.pos_of_ne_zero hz
      have hlen : ((content.drop 0).take (min maxFileBytes content.length)).length =
          min maxFileBytes content.length := by
        rw [List.length_take, List.length_drop]
        omega
      have hr : readFileIncremental maxFileBytes maxLinesCap content cursor maxLines =
          .ok ⟨String.intercalate "\n"
              (takeLast (min maxLines maxLinesCap).toNat
                (splitLinesJs (trimRightL (utf8Decode
                  ((content.drop 0).take (min maxFileBytes content.length)))))),
            0, min maxFileBytes content.length, true,
            decide (maxFileBytes < content.length)⟩ := by
        rw [readFileIncremental_eq maxFileBytes maxLinesCap content cursor maxLines hml]
        have hnotle : ¬ content.length ≤ 0 := by omega
        simp only [hrot, hnotle, decide_True, ite_true, ite_false, Nat.sub_zero,
          Nat.zero_add]
        rw [hlen]
      refine ⟨_, hr, iff_of_true rfl hrot, fun _ => rfl, ?_, ?_, ?_⟩
      · intro h
        have h' : content.length ≤ (0 : Nat) := h
        omega
      · intro _
        refine ⟨?_, ?_, ?_⟩
        · show min maxFileBytes content.length = 0 + min maxFileBytes (content.length - 0)
          omega
        · show min maxFileBytes content.length ≤ content.length
          omega
        · show decide (maxFileBytes < content.length) = true ↔
            maxFileBytes < content.length - 0
          simp
      · intro htr
        have htr' : decide (maxFileBytes < content.length) = false := htr
        simp only [decide_eq_false_iff_not, not_lt] at htr'
        have hmin : min maxFileBytes content.length = content.length := by omega
        have h0 : Int.ofNat (min maxFileBytes content.length) =
            Int.ofNat content.length := by rw [hmin]
        show readFileIncremental maxFileBytes maxLinesCap content
          (Int.ofNat (min maxFileBytes content.length)) maxLines = _
        rw [h0]
        exact hsecond
  · have hreq : (max 0 cursor).toNat ≤ content.length := not_lt.mp hrot
    by_cases hempty : content.length ≤ (max 0 cursor).toNat
    · have heq : (max 0 cursor).toNat = content.length := le_antisymm hreq hempty
      have hr : readFileIncremental maxFileBytes maxLinesCap content cursor maxLines =
          .ok ⟨"", content.length, content.length, false, false⟩ := by
        rw [readFileIncremental_eq maxFileBytes maxLinesCap content cursor maxLines hml]
        simp only [heq, lt_self_iff_false, decide_False, ite_false, min_self,
          le_refl, ite_true, if_pos, if_false]
      refine ⟨_, hr, iff_of_false (by simp) hrot, fun h => absurd h hrot,
        fun _ => ⟨rfl, rfl, rfl⟩, ?_, ?_⟩
      · intro h
        have h' : content.length < content.length := h
        omega
      · intro _
        exact hsecond
    · have hlt : (max 0 cursor).toNat < content.length := not_le.mp hempty
      have hmin : min ((max 0 cursor).toNat) content.length = (max 0 cursor).toNat := by
        omega
      have hlen : ((content.drop ((max 0 cursor).toNat)).take
          (min maxFileBytes (content.length - (max 0 cursor).toNat))).length =
          min maxFileBytes (content.length - (max 0 cursor).toNat) := by
        rw [List.length_take, List.length_drop]
        omega
      have hr : readFileIncremental maxFileBytes maxLinesCap content cursor maxLines =
          .ok ⟨String.intercalate "\n"
              (takeLast (min maxLines maxLinesCap).toNat
                (splitLinesJs (trimRightL (utf8Decode
                  ((content.drop ((max 0 cursor).toNat)).take
                    (min maxFileBytes (content.length - (max 0 cursor).toNat))))))),
            (max 0 cursor).toNat,
            (max 0 cursor).toNat + min maxFileBytes (content.length - (max 0 cursor).toNat),
            false, decide (maxFileBytes < content.length - (max 0 cursor).toNat)⟩ := by
        rw [readFileIncremental_eq maxFileBytes maxLinesCap content cursor maxLines hml]
        have hnotle : ¬ content.length ≤ (max 0 cursor).toNat := hempty
        simp only [hrot, hmin, hnotle, decide_False, ite_false, ite_true, if_false]
        rw [hlen]
      refine ⟨_, hr, iff_of_false (by simp) hrot, fun h => absurd h hrot, ?_, ?_, ?_⟩
      · intro h
        have h' : content.length ≤ (max 0 cursor).toNat := h
        omega
      · intro _
        refine ⟨rfl, ?_, ?_⟩
        · show (max 0 cursor).toNat +
            min maxFileBytes (content.length - (max 0 cursor).toNat) ≤ content.length
          omega
        · show decide (maxFileBytes < content.length - (max 0 cursor).toNat) = true ↔
            maxFileBytes < content.length - (max 0 cursor).toNat
          simp
      · intro htr
        have htr' : decide (maxFileBytes < content.length - (max 0 cursor).toNat) = false := htr
        simp only [decide_eq_false_iff_not, not_lt] at htr'
        have hns : (max 0 cursor).toNat +
            min maxFileBytes (content.length - (max 0 cursor).toNat) = content.length := by
          omega
        have h0 : Int.ofNat ((max 0 cursor).toNat +
            min maxFileBytes (content.length - (max 0 cursor).toNat)) =
            Int.ofNat content.length := by rw [hns]
        show readFileIncremental maxFileBytes maxLinesCap content
          (Int.ofNat ((max 0 cursor).toNat +
            min maxFileBytes (content.length - (max 0 cursor).toNat))) maxLines = _
        rw [h0]
        exact hsecond

/-- C4 counterexample: on an unchanged eight-byte file with
`MAX_FILE_BYTES = 4`, the first call (cursor 0) is byte-truncated with
`nextCursor = 4`, and the second call with `cursor = previous.nextCursor`
returns *non-empty* logs (`"efgh"`) and `nextCursor = 8 ≠ 4` — refuting the
claim's unconditional "second call returns empty logs and
`nextCursor == cursor`". -/
theorem readFileIncremental_second_call_counterexample :
    readFileIncremental 4 2000 demoBytes 0 10 = .ok ⟨"abcd", 0, 4, false, true⟩ ∧
    readFileIncremental 4 2000 demoBytes 4 10 = .ok ⟨"efgh", 4, 8, false, false⟩ := by
  constructor
  · decide
  · decide

/-- C4 witness: the contract applied to the claim's concrete
rotation example — a 300-byte file polled with cursor 500 rotates and
restarts at 0. -/
theorem readFileIncremental_contract_witness :
    ∃ r, readFileIncremental 2000000 2000 (List.replicate 300 97) 500 10 = .ok r ∧
      r.rotated = true ∧ r.fromCursor = 0 := by
  obtain ⟨r, h1, h2, h3, _⟩ :=
    readFileIncremental_contract 2000000 2000 (List.replicate 300 97) 500 10 (by decide)
  refine ⟨r, h1, h2.mpr ?_, h3 ?_⟩ <;>
    · rw [List.length_replicate]
      decide

theorem eq_of_mem_nodup_keys {l : List (String × String)} (hnd : (l.map Prod.fst).Nodup)
    {a b : String × String} (ha : a ∈ l) (hb : b ∈ l) (hk : a.1 = b.1) : a = b := by
  induction l with
  | nil => cases ha
  | cons x xs ih =>
    have hx : x.1 ∉ xs.map Prod.fst := (List.nodup_cons.mp hnd).1
    have hxs : (xs.map Prod.fst).Nodup := (List.nodup_cons.mp hnd).2
    rcases List.mem_cons.mp ha with rfl | ha' <;> rcases List.mem_cons.mp hb with rfl | hb'
    · rfl
    · exact absurd (hk ▸ List.mem_map_of_mem Prod.fst hb') hx
    · exact absurd (hk ▸ List.mem_map_of_mem Prod.fst ha') hx
    · exact ih hxs ha' hb'

theorem sortByKey_pairwise (fs : List (String × String)) :
    (sortByKey fs).Pairwise (fun a b => localeLe a.1 b.1 = true) :=
  sortJs_pairwise (fun x y => localeLe x.1 y.1) (fun a b => localeLe_total a.1 b.1)
    (fun a b c h1 h2 => localeLe_trans (a := a.1) (b := b.1) (c := c.1) h1 h2) fs

theorem sortByKey_eq_of_perm (fs₁ fs₂ : List (String × String)) (hp : fs₁.Perm fs₂)
    (hnd : (fs₁.map Prod.fst).Nodup) : sortByKey fs₁ = sortByKey fs₂ := by
  refine sorted_perm_eq (R := fun a b => localeLe a.1 b.1 = true) _ _
    ((sortJs_perm _ fs₁).trans (hp.trans (sortJs_perm _ fs₂).symm))
    (sortByKey_pairwise fs₁) (sortByKey_pairwise fs₂) ?_
  intro a b ha hb h1 h2
  have ha' : a ∈ fs₁ := (sortJs_perm _ fs₁).mem_iff.mp ha
  have hb' : b ∈ fs₁ := (sortJs_perm _ fs₁).mem_iff.mp hb
  exact eq_of_mem_nodup_keys hnd ha' hb' (localeLe_antisymm h1 h2)

/-- C6: selector compilation.  The rendered entry list is key-sorted (under
the `localeCompare` model), the output is invariant under permutation of
the (unique-keyed) filter map, every value passes through the
backslash/quote escaper, the ` |= "<escaped contains>"` clause is appended
exactly when a non-empty `contains` is present, and the two concrete
examples of the claim evaluate bit-exactly. -/
theorem buildLokiQuery_render_contract :
    (∀ fs : List (String × String),
      (sortByKey fs).Pairwise (fun a b => localeLe a.1 b.1 = true)) ∧
    (∀ fs : List (String × String), (sortByKey fs).Perm fs) ∧
    (∀ fs₁ fs₂ : List (String × String), fs₁.Perm fs₂ → (fs₁.map Prod.fst).Nodup →
      ∀ contains, renderLokiSelector fs₁ contains = renderLokiSelector fs₂ contains) ∧
    (∀ fs : List (String × String), renderLokiSelector fs none =
      "\x7b" ++ String.intercalate ","
        ((sortByKey fs).map (fun kv => kv.1 ++ "=\"" ++ escapeLogQL kv.2 ++ "\"")) ++ "\x7d") ∧
    (∀ (fs : List (String × String)) (c : String), c ≠ "" →
      renderLokiSelector fs (some c) =
        renderLokiSelector fs none ++ " |= \"" ++ escapeLogQL c ++ "\"") ∧
    escapeLogQL "a\\y\"z" = "a\\\\y\\\"z" ∧
    buildEffectiveLokiQuery demoLokiRules
      ⟨"loki", none, some [("unit", "sshd.service")], none, false⟩ =
      .ok "\x7bunit=\"sshd.service\"\x7d" ∧
    buildEffectiveLokiQuery demoLokiRules
      ⟨"loki", none, some [("unit", "sshd.service")], some "Failed password", false⟩ =
      .ok "\x7bunit=\"sshd.service\"\x7d |= \"Failed password\"" := by
  refine ⟨sortByKey_pairwise, fun fs => sortJs_perm _ fs, ?_, ?_, ?_, by decide,
    by decide, by decide⟩
  · intro fs₁ fs₂ hp hnd contains
    unfold renderLokiSelector
    rw [sortByKey_eq_of_perm fs₁ fs₂ hp hnd]
  · intro fs
    unfold renderLokiSelector
    show _ ++ ("" : String) = _
    rw [String.append_empty]
  · intro fs c hc
    unfold renderLokiSelector
    have hclause : lokiContainsClause (some c) = " |= \"" ++ escapeLogQL c ++ "\"" := by
      unfold lokiContainsClause
      show (if c = "" then "" else " |= \"" ++ escapeLogQL c ++ "\"") = _
      rw [if_neg hc]
    rw [hclause]
    show _ ++ _ = (_ ++ ("" : String)) ++ _ ++ _ ++ _
    rw [String.append_empty]
    have hlit : ∀ B : String, "\x7d" ++ (" |= \"" ++ B) = "\x7d |= \"" ++ B := by
      intro B
      rw [← String.append_assoc]
      rfl
    simp only [String.append_assoc, hlit]

/-- C6 witness: order independence applied at a two-entry filter map given
in both insertion orders. -/
theorem buildLokiQuery_render_contract_witness :
    renderLokiSelector [("b", "2"), ("a", "1")] none =
      renderLokiSelector [("a", "1"), ("b", "2")] none :=
  buildLokiQuery_render_contract.2.2.1 [("b", "2"), ("a", "1")] [("a", "1"), ("b", "2")]
    (List.Perm.swap ("a", "1") ("b", "2") []) (by decide) none

theorem lineBytesSum_nil : lineBytesSum [] = 0 := rfl

theorem lineBytesSum_cons (x : String) (xs : List String) :
    lineBytesSum (x :: xs) = (utf8Len x + 1) + lineBytesSum xs := by
  simp [lineBytesSum]

/-- The byte-cap loop emits exactly a prefix: the greedy maximal prefix
whose total (newline-inclusive) byte weight fits the cap, and reports
truncation iff the prefix is proper. -/
theorem capLines_spec (maxBytes : Nat) :
    ∀ (xs : List String) (used : Nat),
      ∃ k, capLines maxBytes used xs = (xs.take k, decide (k < xs.length)) ∧
        used + lineBytesSum (xs.take k) ≤ max used maxBytes ∧
        (k < xs.length → maxBytes < used + lineBytesSum (xs.take (k + 1)))
  | [], used => ⟨0, rfl, by simp [lineBytesSum_nil], by simp⟩
  | x :: xs, used => by
    by_cases h : maxBytes < used + (utf8Len x + 1)
    · refine ⟨0, ?_, ?_, ?_⟩
      · unfold capLines
        rw [if_pos h]
        simp
      · simp [lineBytesSum_nil]
      · intro _
        rw [List.take_succ_cons, List.take_zero, lineBytesSum_cons, lineBytesSum_nil]
        omega
    · obtain ⟨k, hk1, hk2, hk3⟩ := capLines_spec maxBytes xs (used + (utf8Len x + 1))
      refine ⟨k + 1, ?_, ?_, ?_⟩
      · unfold capLines
        rw [if_neg h, hk1]
        show (x :: xs.take k, decide (k < xs.length)) = _
        rw [List.take_succ_cons, List.length_cons]
        refine congrArg (Prod.mk _) ?_
        simp [Nat.succ_lt_succ_iff]
      · rw [List.take_succ_cons, lineBytesSum_cons]
        omega
      · intro hl
        rw [List.length_cons] at hl
        have hl' : k < xs.length := by omega
        have := hk3 hl'
        rw [List.take_succ_cons, lineBytesSum_cons]
        omega

theorem clampLokiLimit_pos (lokiMaxLinesCap limit : Int) (h : 0 < limit) :
    clampLokiLimit lokiMaxLinesCap limit = .ok (min limit (max 1 lokiMaxLinesCap)) := by
  unfold clampLokiLimit
  rw [if_neg (not_le.mpr h)]

/-- C5: `queryLokiRange` post-processing.  The timestamp sort is a stable
ascending sort (sortedness, permutation, and ties-keep-original-order in
filter form); every flattened entry comes from some stream's value tuple
and is formatted from that stream's sorted label prefix and its parsed
timestamp; the bracket prefix is empty for label-less streams; and the
successful output is exactly: the most recent clamped-limit entries'
formatted lines, cut whole-line-wise at the byte cap (the emitted lines
are a prefix whose weight fits, maximal by the over-cap bound on the next
line), with the single truncation marker appended exactly when lines were
dropped, all joined by newlines. -/
theorem queryLokiRange_post_contract :
    (∀ l : List (Int × String), (sortLokiEntries l).Pairwise (fun a b => a.1 ≤ b.1)) ∧
    (∀ l : List (Int × String), (sortLokiEntries l).Perm l) ∧
    (∀ (l : List (Int × String)) (t : Int),
      (sortLokiEntries l).filter (fun e => e.1 == t) = l.filter (fun e => e.1 == t)) ∧
    (∀ (streams : List LokiStream) (e : Int × String), e ∈ flattenLokiStreams streams →
      ∃ st, st ∈ streams ∧ ∃ tv, tv ∈ st.values ∧ parseTsNs tv.1 = some e.1 ∧
        e.2 = formatLokiEntry (formatStreamLabels st.stream) e.1 tv.2) ∧
    formatStreamLabels [] = "" ∧
    (∀ (lokiCap maxRB limit : Int), 0 < limit → ∀ streams : List LokiStream,
      ∃ k, queryLokiRangePost lokiCap maxRB streams limit =
          .ok (String.intercalate "\n"
            ((lokiSelectedLines lokiCap streams limit).take k ++
              (if k < (lokiSelectedLines lokiCap streams limit).length
               then [lokiTruncationMarker] else []))) ∧
        lineBytesSum ((lokiSelectedLines lokiCap streams limit).take k) ≤
          (max 1000 maxRB).toNat ∧
        (k < (lokiSelectedLines lokiCap streams limit).length →
          (max 1000 maxRB).toNat <
            lineBytesSum ((lokiSelectedLines lokiCap streams limit).take (k + 1)))) := by
  refine ⟨?_, ?_, ?_, ?_, rfl, ?_⟩
  · intro l
    have h := sortJs_pairwise (fun a b : Int × String => a.1 ≤ b.1)
      (fun a b => by
        rcases le_total a.1 b.1 with h | h
        · exact Or.inl (decide_eq_true h)
        · exact Or.inr (decide_eq_true h))
      (fun a b c h1 h2 =>
        decide_eq_true (le_trans (of_decide_eq_true h1) (of_decide_eq_true h2))) l
    exact h.imp fun hab => of_decide_eq_true hab
  · intro l
    exact sortJs_perm _ l
  · intro l t
    refine sortJs_filter_eq _ _ ?_ l
    intro x y hx hy
    have hx' : x.1 = t := by simpa using hx
    have hy' : y.1 = t := by simpa using hy
    constructor <;>
      · apply decide_eq_true
        rw [hx', hy']
  · intro streams e he
    unfold flattenLokiStreams at he
    rcases List.mem_flatMap.mp he with ⟨st, hst, he'⟩
    rcases List.mem_filterMap.mp he' with ⟨tv, htv, hsome⟩
    rcases Option.map_eq_some'.mp hsome with ⟨ts, hts, heq⟩
    refine ⟨st, hst, tv, htv, ?_, ?_⟩
    · rw [hts, ← heq]
    · rw [← heq]
  · intro lokiCap maxRB limit hlim streams
    obtain ⟨k, hc1, hc2, hc3⟩ :=
      capLines_spec (max 1000 maxRB).toNat (lokiSelectedLines lokiCap streams limit) 0
    refine ⟨k, ?_, by omega, fun hk => by have := hc3 hk; omega⟩
    have hpost : queryLokiRangePost lokiCap maxRB streams limit =
        .ok (match capLines (max 1000 maxRB).toNat 0
            (lokiSelectedLines lokiCap streams limit) with
          | (outLines, truncated) =>
            String.intercalate "\n"
              (if truncated then outLines ++ [lokiTruncationMarker] else outLines)) := by
      unfold queryLokiRangePost
      rw [clampLokiLimit_pos lokiCap limit hlim]
      rfl
    rw [hpost, hc1]
    by_cases hk : k < (lokiSelectedLines lokiCap streams limit).length
    · simp only [hk, decide_True, if_pos, if_true, ite_true]
    · simp [hk]

/-- C5 witness: the byte-cap clause of the contract applied at a concrete
small response (limit 10). -/
theorem queryLokiRange_post_contract_witness :
    ∃ k, queryLokiRangePost 2000 2000000
        [⟨[], [("1500000000", "lineC")]⟩] 10 =
        .ok (String.intercalate "\n"
          ((lokiSelectedLines 2000 [⟨[], [("1500000000", "lineC")]⟩] 10).take k ++
            (if k < (lokiSelectedLines 2000 [⟨[], [("1500000000", "lineC")]⟩] 10).length
             then [lokiTruncationMarker] else []))) ∧
      lineBytesSum ((lokiSelectedLines 2000 [⟨[], [("1500000000", "lineC")]⟩] 10).take k) ≤
        (max 1000 (2000000 : Int)).toNat ∧
      (k < (lokiSelectedLines 2000 [⟨[], [("1500000000", "lineC")]⟩] 10).length →
        (max 1000 (2000000 : Int)).toNat <
          lineBytesSum ((lokiSelectedLines 2000
            [⟨[], [("1500000000", "lineC")]⟩] 10).take (k + 1))) :=
  queryLokiRange_post_contract.2.2.2.2.2 2000 2000000 10 (by decide)
    [⟨[], [("1500000000", "lineC")]⟩]

theorem addUnique_ne_nil (xs : List String) (x : String) : addUnique xs x ≠ [] := by
  unfold addUnique
  by_cases h : xs.contains x
  · rw [if_pos h]
    intro hnil
    rw [hnil] at h
    simp at h
  · rw [if_neg h]
    simp

theorem mem_addUnique {xs : List String} {x y : String} (h : y ∈ addUnique xs x) :
    y ∈ xs ∨ y = x := by
  unfold addUnique at h
  by_cases hc : xs.contains x
  · rw [if_pos hc] at h
    exact Or.inl h
  · rw [if_neg hc] at h
    rcases List.mem_append.mp h with h | h
    · exact Or.inl h
    · exact Or.inr (List.mem_singleton.mp h)

theorem addUnique_nodup {xs : List String} (x : String) (h : xs.Nodup) :
    (addUnique xs x).Nodup := by
  unfold addUnique
  by_cases hc : xs.contains x
  · rw [if_pos hc]
    exact h
  · rw [if_neg hc]
    refine List.Nodup.append h (List.nodup_singleton x) ?_
    intro a ha hb
    rw [List.mem_singleton.mp hb] at ha
    exact hc (List.elem_iff.mpr ha)

theorem sanitizeGo_cons (inF : Bool) (rs : List String) (ch : Bool) (line : List Char)
    (rest : List (List Char)) :
    sanitizeGo inF rs ch (line :: rest) =
      if isPrefixL "```".data (trimL line) then
        (line :: (sanitizeGo (!inF) rs ch rest).1, (sanitizeGo (!inF) rs ch rest).2.1,
          (sanitizeGo (!inF) rs ch rest).2.2)
      else
        match firedPat line with
        | none =>
          (line :: (sanitizeGo inF rs ch rest).1, (sanitizeGo inF rs ch rest).2.1,
            (sanitizeGo inF rs ch rest).2.2)
        | some p =>
          (redactLine p inF line :: (sanitizeGo inF (addUnique rs p.str) true rest).1,
            (sanitizeGo inF (addUnique rs p.str) true rest).2.1,
            (sanitizeGo inF (addUnique rs p.str) true rest).2.2) := rfl

theorem sanitizeGo_changed_of_changed :
    ∀ (lines : List (List Char)) (inF : Bool) (rs : List String),
      (sanitizeGo inF rs true lines).2.2 = true
  | [], _, _ => rfl
  | line :: rest, inF, rs => by
    rw [sanitizeGo_cons]
    by_cases hf : isPrefixL "```".data (trimL line) = true
    · rw [if_pos hf]
      exact sanitizeGo_changed_of_changed rest (!inF) rs
    · rw [if_neg hf]
      cases hp : firedPat line with
      | none => exact sanitizeGo_changed_of_changed rest inF rs
      | some p => exact sanitizeGo_changed_of_changed rest inF (addUnique rs p.str)

theorem sanitizeGo_reasons_ne_nil :
    ∀ (lines : List (List Char)) (inF : Bool) (rs : List String) (ch : Bool),
      rs ≠ [] → (sanitizeGo inF rs ch lines).2.1 ≠ []
  | [], _, _, _, h => h
  | line :: rest, inF, rs, ch, h => by
    rw [sanitizeGo_cons]
    by_cases hf : isPrefixL "```".data (trimL line) = true
    · rw [if_pos hf]
      exact sanitizeGo_reasons_ne_nil rest (!inF) rs ch h
    · rw [if_neg hf]
      cases hp : firedPat line with
      | none => exact sanitizeGo_reasons_ne_nil rest inF rs ch h
      | some p =>
        exact sanitizeGo_reasons_ne_nil rest inF (addUnique rs p.str) true
          (addUnique_ne_nil rs p.str)

theorem sanitizeGo_changed_reasons_ne_nil :
    ∀ (lines : List (List Char)) (inF : Bool) (rs : List String),
      (sanitizeGo inF rs false lines).2.2 = true →
      (sanitizeGo inF rs false lines).2.1 ≠ []
  | [], _, _, h => nomatch h
  | line :: rest, inF, rs, h => by
    rw [sanitizeGo_cons] at h ⊢
    by_cases hf : isPrefixL "```".data (trimL line) = true
    · rw [if_pos hf] at h ⊢
      exact sanitizeGo_changed_reasons_ne_nil rest (!inF) rs h
    · rw [if_neg hf] at h ⊢
      cases hp : firedPat line with
      | none =>
        rw [hp] at h
        exact sanitizeGo_changed_reasons_ne_nil rest inF rs h
      | some p =>
        exact sanitizeGo_reasons_ne_nil rest inF (addUnique rs p.str) true
          (addUnique_ne_nil rs p.str)

theorem sanitizeGo_reasons_nodup :
    ∀ (lines : List (List Char)) (inF : Bool) (rs : List String) (ch : Bool),
      rs.Nodup → (sanitizeGo inF rs ch lines).2.1.Nodup
  | [], _, _, _, h => h
  | line :: rest, inF, rs, ch, h => by
    rw [sanitizeGo_cons]
    by_cases hf : isPrefixL "```".data (trimL line) = true
    · rw [if_pos hf]
      exact sanitizeGo_reasons_nodup rest (!inF) rs ch h
    · rw [if_neg hf]
      cases hp : firedPat line with
      | none => exact sanitizeGo_reasons_nodup rest inF rs ch h
      | some p =>
        exact sanitizeGo_reasons_nodup rest inF (addUnique rs p.str) true
          (addUnique_nodup p.str h)

theorem sanitizeGo_reasons_mem :
    ∀ (lines : List (List Char)) (inF : Bool) (rs : List String) (ch : Bool) (r : String),
      r ∈ (sanitizeGo inF rs ch lines).2.1 →
      r ∈ rs ∨ ∃ p ∈ FORBIDDEN_PATTERNS, r = p.str
  | [], _, _, _, _, h => Or.inl h
  | line :: rest, inF, rs, ch, r, h => by
    rw [sanitizeGo_cons] at h
    by_cases hf : isPrefixL "```".data (trimL line) = true
    · rw [if_pos hf] at h
      exact sanitizeGo_reasons_mem rest (!inF) rs ch r h
    · rw [if_neg hf] at h
      cases hp : firedPat line with
      | none =>
        rw [hp] at h
        exact sanitizeGo_reasons_mem rest inF rs ch r h
      | some p =>
        rw [hp] at h
        rcases sanitizeGo_reasons_mem rest inF (addUnique rs p.str) true r h with h' | h'
        · rcases mem_addUnique h' with h'' | h''
          · exact Or.inl h''
          · exact Or.inr ⟨p, List.mem_of_find?_eq_some hp, h''⟩
        · exact Or.inr h'

theorem isPrefixL_self_append [DecidableEq α] :
    ∀ (xs ys : List α), isPrefixL xs (xs ++ ys) = true
  | [], _ => rfl
  | x :: xs, ys => by
    unfold isPrefixL
    simp [isPrefixL_self_append xs ys]

/-- C10: the redactor.  The banner is prepended iff at least one redaction
occurred (`redacted` is true exactly when `reasons` is non-empty, the
returned text then starts with the Safety Note banner, and an untouched
input comes back verbatim with no reasons); `reasons` is a deduplicated
list of `String(pattern)` forms of forbidden patterns that fired; and
`Redact("sudo apt-get install foo")` returns `redacted = true` with the
non-empty reasons list `["/\\bsudo\\b/i"]` and a banner-prefixed text. -/
theorem redact_contract :
    (∀ s, (sanitizeReadOnlyAnalysisOutput s).redacted = true ↔
      (sanitizeReadOnlyAnalysisOutput s).reasons ≠ []) ∧
    (∀ s, (sanitizeReadOnlyAnalysisOutput s).redacted = true →
      jsStartsWith safetyNoteBanner (sanitizeReadOnlyAnalysisOutput s).analysis = true) ∧
    (∀ s, (sanitizeReadOnlyAnalysisOutput s).redacted = false →
      (sanitizeReadOnlyAnalysisOutput s).analysis = s ∧
      (sanitizeReadOnlyAnalysisOutput s).reasons = []) ∧
    (∀ s, (sanitizeReadOnlyAnalysisOutput s).reasons.Nodup) ∧
    (∀ s r, r ∈ (sanitizeReadOnlyAnalysisOutput s).reasons →
      ∃ p ∈ FORBIDDEN_PATTERNS, r = p.str) ∧
    sanitizeReadOnlyAnalysisOutput "sudo apt-get install foo" =
      ⟨safetyNoteBanner ++ "[REDACTED] apt-get install foo", true, ["/\\bsudo\\b/i"]⟩ := by
  have hres : ∀ s, sanitizeReadOnlyAnalysisOutput s =
      if (sanitizeGo false [] false (splitOnCharL '\n' s.data)).2.2 then
        ⟨safetyNoteBanner ++ String.intercalate "\n"
          ((sanitizeGo false [] false (splitOnCharL '\n' s.data)).1.map String.mk),
          true, (sanitizeGo false [] false (splitOnCharL '\n' s.data)).2.1⟩
      else ⟨s, false, []⟩ := fun s => rfl
  refine ⟨?_, ?_, ?_, ?_, ?_, by decide⟩
  · intro s
    rw [hres s]
    by_cases hch : (sanitizeGo false [] false (splitOnCharL '\n' s.data)).2.2 = true
    · rw [if_pos hch]
      exact iff_of_true rfl
        (sanitizeGo_changed_reasons_ne_nil (splitOnCharL '\n' s.data) false [] hch)
    · rw [if_neg hch]
      exact iff_of_false (by simp) (by simp)
  · intro s hred
    rw [hres s] at hred ⊢
    by_cases hch : (sanitizeGo false [] false (splitOnCharL '\n' s.data)).2.2 = true
    · rw [if_pos hch]
      show isPrefixL safetyNoteBanner.data (safetyNoteBanner ++ _).data = true
      rw [String.data_append]
      exact isPrefixL_self_append safetyNoteBanner.data _
    · rw [if_neg hch] at hred
      simp at hred
  · intro s hred
    rw [hres s] at hred ⊢
    by_cases hch : (sanitizeGo false [] false (splitOnCharL '\n' s.data)).2.2 = true
    · rw [if_pos hch] at hred
      simp at hred
    · rw [if_neg hch]
      exact ⟨rfl, rfl⟩
  · intro s
    rw [hres s]
    by_cases hch : (sanitizeGo false [] false (splitOnCharL '\n' s.data)).2.2 = true
    · rw [if_pos hch]
      exact sanitizeGo_reasons_nodup (splitOnCharL '\n' s.data) false [] false List.nodup_nil
    · rw [if_neg hch]
      exact List.nodup_nil
  · intro s r hr
    rw [hres s] at hr
    by_cases hch : (sanitizeGo false [] false (splitOnCharL '\n' s.data)).2.2 = true
    · rw [if_pos hch] at hr
      rcases sanitizeGo_reasons_mem (splitOnCharL '\n' s.data) false [] false r hr with h | h
      · cases h
      · exact h
    · rw [if_neg hch] at hr
      cases hr

/-- C10 witness: the banner clause applied at the claim's concrete input. -/
theorem redact_contract_witness :
    jsStartsWith safetyNoteBanner
      (sanitizeReadOnlyAnalysisOutput "sudo apt-get install foo").analysis = true :=
  redact_contract.2.1 "sudo apt-get install foo" (by decide)

end Blackice
